import Mathlib

/-!
# encrypt.js — AES-256-GCM envelope and batch loops

A shallow embedding of `src/encrypt.js`.

* A JavaScript string is a sequence of UTF-16 code units, a `Buffer` is a sequence of bytes.
* `Buffer.from(s, 'utf8')`, `buf.toString('utf8')`, `buf.toString('base64')` and
  `Buffer.from(s, 'base64')` are modelled concretely, after the behaviour of the Node.js runtime.
* `crypto.pbkdf2Sync`, the AES-256-GCM cipher/decipher objects and `crypto.randomBytes` are
  outside the repository: the first two are parameters (`Prims`), the values returned by
  `randomBytes` to one call of `cryptoSimple` are explicit inputs (`Draws`).
-/

namespace Encrypt

set_option maxRecDepth 100000

/-- One byte of a `Buffer`. -/
abbrev Byte := Fin 256

/-- A `Buffer`: a sequence of bytes. -/
abbrev Bytes := List Byte

/-- One UTF-16 code unit of a JavaScript string. -/
abbrev CodeUnit := Fin 65536

/-- A JavaScript string: a sequence of UTF-16 code units. -/
abbrev JSString := List CodeUnit

/-! ## base64 -/

/-- The character of the standard base64 alphabet for a 6-bit value. -/
def b64Char (i : Nat) : CodeUnit :=
  if i < 26 then Fin.ofNat (65 + i)
  else if i < 52 then Fin.ofNat (71 + i)
  else if i < 62 then Fin.ofNat (i - 4)
  else if i = 62 then 43
  else 47

/-- The padding character `=`. -/
def b64Pad : CodeUnit := 61

/-- The 6-bit groups of a byte sequence, three bytes giving four groups; a final group of one or
two bytes gives two or three groups, the last one filled with zero bits. -/
def sextets : Bytes → List Nat
  | a :: b :: c :: rest =>
      (a.val / 4) :: ((a.val % 4) * 16 + b.val / 16) :: ((b.val % 16) * 4 + c.val / 64)
        :: (c.val % 64) :: sextets rest
  | [a, b] => [a.val / 4, (a.val % 4) * 16 + b.val / 16, (b.val % 16) * 4]
  | [a] => [a.val / 4, (a.val % 4) * 16]
  | [] => []

/-- Model of `buf.toString('base64')`: the alphabet characters of the 6-bit groups, padded with
`=` to a multiple of four characters. -/
def base64Encode (bs : Bytes) : JSString :=
  (sextets bs).map b64Char ++ List.replicate ((3 - bs.length % 3) % 3) b64Pad

/-- The 6-bit value of a character, for the standard and the URL-safe alphabet; `none` for every
other character (the runtime looks the character up by its low eight bits). -/
def unbase64 (c : CodeUnit) : Option Nat :=
  let x := c.val % 256
  if 65 ≤ x ∧ x ≤ 90 then some (x - 65)
  else if 97 ≤ x ∧ x ≤ 122 then some (x - 71)
  else if 48 ≤ x ∧ x ≤ 57 then some (x + 4)
  else if x = 43 ∨ x = 45 then some 62
  else if x = 47 ∨ x = 95 then some 63
  else none

/-- Bytes of a sequence of 6-bit values: four values give three bytes, a final group of three or
two values gives two or one bytes, a single left-over value gives none. -/
def unsextets : List Nat → Bytes
  | w :: x :: y :: z :: rest =>
      (Fin.ofNat (w * 4 + x / 16)) :: (Fin.ofNat ((x % 16) * 16 + y / 4))
        :: (Fin.ofNat ((y % 4) * 64 + z)) :: unsextets rest
  | [w, x, y] => [Fin.ofNat (w * 4 + x / 16), Fin.ofNat ((x % 16) * 16 + y / 4)]
  | [w, x] => [Fin.ofNat (w * 4 + x / 16)]
  | _ => []

/-- A character the decoder reads as the padding `=`: the runtime looks at the low eight bits
of the code unit, so `=` itself and every code unit ending in `3D` (U+013D, U+043D, …). -/
def readsAsPad (c : CodeUnit) : Bool := c.val % 256 = 61

/-- Model of `Buffer.from(s, 'base64')`, the lenient decoder of the runtime: it never fails,
stops at the first character read as `=`, and skips every character that is not in the
alphabet. -/
def base64Decode (s : JSString) : Bytes :=
  unsextets ((s.takeWhile (fun c => !readsAsPad c)).filterMap unbase64)

/-! ## UTF-8 -/

/-- The replacement character U+FFFD. -/
def replacementUnit : CodeUnit := 0xFFFD

/-- The three bytes `EF BF BD`, the UTF-8 form of U+FFFD. -/
def replacementBytes : Bytes := [0xEF, 0xBF, 0xBD]

/-- A high (leading) surrogate: a code unit in `D800..DBFF`. -/
def isHighSurrogate (u : CodeUnit) : Bool := 0xD800 ≤ u.val && u.val < 0xDC00

/-- A low (trailing) surrogate: a code unit in `DC00..DFFF`. -/
def isLowSurrogate (u : CodeUnit) : Bool := 0xDC00 ≤ u.val && u.val < 0xE000

/-- The UTF-8 bytes of one code point below `0x110000`. -/
def utf8Bytes (cp : Nat) : Bytes :=
  if cp < 0x80 then [Fin.ofNat cp]
  else if cp < 0x800 then [Fin.ofNat (0xC0 + cp / 64), Fin.ofNat (0x80 + cp % 64)]
  else if cp < 0x10000 then
    [Fin.ofNat (0xE0 + cp / 4096), Fin.ofNat (0x80 + cp / 64 % 64), Fin.ofNat (0x80 + cp % 64)]
  else
    [Fin.ofNat (0xF0 + cp / 262144), Fin.ofNat (0x80 + cp / 4096 % 64),
      Fin.ofNat (0x80 + cp / 64 % 64), Fin.ofNat (0x80 + cp % 64)]

/-- The bytes written for a code unit that is not the first half of a surrogate pair: U+FFFD for
a surrogate, else the code point of the unit. -/
def utf8Unit (u : CodeUnit) : Bytes :=
  if isHighSurrogate u || isLowSurrogate u then replacementBytes else utf8Bytes u.val

/-- Model of `Buffer.from(s, 'utf8')`: a surrogate pair is one code point of four bytes, a
surrogate without its partner is written as U+FFFD, every other code unit is a code point of one
to three bytes. -/
def utf8Encode : JSString → Bytes
  | [] => []
  | [u] => utf8Unit u
  | u :: l :: rest =>
    if isHighSurrogate u && isLowSurrogate l then
      utf8Bytes (0x10000 + (u.val - 0xD800) * 1024 + (l.val - 0xDC00)) ++ utf8Encode rest
    else utf8Unit u ++ utf8Encode (l :: rest)

/-- The UTF-16 code units of a code point: itself below `0x10000`, else a surrogate pair. -/
def utf16Units (cp : Nat) : JSString :=
  if cp < 0x10000 then [Fin.ofNat cp]
  else [Fin.ofNat (0xD800 + (cp - 0x10000) / 1024), Fin.ofNat (0xDC00 + (cp - 0x10000) % 1024)]

/-- State of the UTF-8 decoder between two bytes: the number of continuation bytes still
expected, the bits of the code point gathered so far, and the range allowed for the next
continuation byte. -/
structure Utf8State where
  needed : Nat
  cp : Nat
  lower : Nat
  upper : Nat
  deriving DecidableEq, Repr

/-- The decoder state outside a multi-byte sequence. -/
def Utf8State.init : Utf8State := ⟨0, 0, 0x80, 0xBF⟩

/-- One byte read outside a multi-byte sequence. -/
def utf8Lead (b : Nat) : Utf8State × JSString :=
  if b ≤ 0x7F then (Utf8State.init, [Fin.ofNat b])
  else if 0xC2 ≤ b ∧ b ≤ 0xDF then (⟨1, b % 32, 0x80, 0xBF⟩, [])
  else if 0xE0 ≤ b ∧ b ≤ 0xEF then
    (⟨2, b % 16, if b = 0xE0 then 0xA0 else 0x80, if b = 0xED then 0x9F else 0xBF⟩, [])
  else if 0xF0 ≤ b ∧ b ≤ 0xF4 then
    (⟨3, b % 8, if b = 0xF0 then 0x90 else 0x80, if b = 0xF4 then 0x8F else 0xBF⟩, [])
  else (Utf8State.init, [replacementUnit])

/-- One step of the decoder: a byte that cannot continue the sequence in progress ends it with
U+FFFD and is read again as the start of a new sequence. -/
def utf8Step (st : Utf8State) (b : Nat) : Utf8State × JSString :=
  if st.needed = 0 then utf8Lead b
  else if b < st.lower ∨ st.upper < b then
    ((utf8Lead b).1, replacementUnit :: (utf8Lead b).2)
  else if st.needed = 1 then (Utf8State.init, utf16Units (st.cp * 64 + b % 64))
  else (⟨st.needed - 1, st.cp * 64 + b % 64, 0x80, 0xBF⟩, [])

/-- The decoder run from a given state; a sequence cut short by the end of the input gives
U+FFFD. -/
def utf8DecodeFrom (st : Utf8State) : Bytes → JSString
  | [] => if st.needed = 0 then [] else [replacementUnit]
  | b :: rest => (utf8Step st b.val).2 ++ utf8DecodeFrom (utf8Step st b.val).1 rest

/-- Model of `buf.toString('utf8')`: never fails, ill-formed input is replaced by U+FFFD. -/
def utf8Decode (bs : Bytes) : JSString := utf8DecodeFrom Utf8State.init bs

/-- A string without unpaired surrogates. -/
def wellFormed : JSString → Bool
  | [] => true
  | [u] => !(isHighSurrogate u || isLowSurrogate u)
  | u :: l :: rest =>
    if isHighSurrogate u && isLowSurrogate l then wellFormed rest
    else !(isHighSurrogate u || isLowSurrogate u) && wellFormed (l :: rest)

/-- The UTF-16 code units of one character of a Lean string. -/
def charUnits (c : Char) : JSString := utf16Units c.toNat

/-- The JavaScript string written as the literal `s`. -/
def js (s : String) : JSString := s.toList.foldr (fun c acc => charUnits c ++ acc) []


/-- The text of a template substitution `${n}` for a non-negative integer `n`. -/
def numText (n : Nat) : JSString := js (toString n)

/-! ## cryptoSimple -/

/-- The primitives of the `crypto` module used by `cryptoSimple`.

* `pbkdf2 password salt iterations keyLength` is `crypto.pbkdf2Sync(…, 'sha512')`, the password
  given by its UTF-8 bytes;
* `gcmSeal key iv plaintext` is the `aes-256-gcm` cipher object run on the plaintext
  (`update`, `final`, `getAuthTag`): the encrypted bytes and the authentication tag;
* `gcmOpen key iv authTag encrypted` is the decipher object (`setAuthTag`, `update`, `final`):
  the decrypted bytes, or `none` when anything in it throws. -/
structure Prims where
  pbkdf2 : Bytes → Bytes → Nat → Nat → Bytes
  gcmSeal : Bytes → Bytes → Bytes → Bytes × Bytes
  gcmOpen : Bytes → Bytes → Bytes → Bytes → Option Bytes

/-- What the two `crypto.randomBytes` calls of one `cryptoSimple` call in `encrypt` mode return:
`randomBytes(32)` for the salt and `randomBytes(12)` for the nonce. -/
structure Draws where
  salt : Bytes
  iv : Bytes
  salt_length : salt.length = 32
  iv_length : iv.length = 12

/-- A call of a `crypto` primitive, as recorded in the trace of a run. -/
inductive Call where
  | randomBytes (size : Nat)
  | pbkdf2 (password salt : Bytes) (iterations keyLength : Nat)
  | cipher (key iv plaintext : Bytes)
  | decipher (key iv authTag encrypted : Bytes)
  deriving DecidableEq, Repr

instance instDecidableEqExcept {ε α : Type} [DecidableEq ε] [DecidableEq α] :
    DecidableEq (Except ε α)
  | .ok x, .ok y =>
    if h : x = y then isTrue (congrArg Except.ok h)
    else isFalse (fun e => h (Except.ok.inj e))
  | .error x, .error y =>
    if h : x = y then isTrue (congrArg Except.error h)
    else isFalse (fun e => h (Except.error.inj e))
  | .ok _, .error _ => isFalse (fun e => Except.noConfusion e)
  | .error _, .ok _ => isFalse (fun e => Except.noConfusion e)

/-- The result of a call: the returned text or the message of the thrown `Error`, and the
`crypto` calls made on the way. -/
structure Outcome where
  result : Except JSString JSString
  calls : List Call

def saltLength : Nat := 32
def ivLength : Nat := 12
def keyLength : Nat := 32
def authTagLength : Nat := 16
def iterations : Nat := 600000

/-- The bound of the length check, `saltLength + ivLength + authTagLength + 1`. -/
def minLength : Nat := saltLength + ivLength + authTagLength + 1

/-- The expression `buffer.subarray(start, end)` for `0 ≤ start ≤ end`. -/
def subarray (buffer : Bytes) (start stop : Nat) : Bytes := (buffer.take stop).drop start

/-- The expression `buffer.subarray(start)`. -/
def subarrayFrom (buffer : Bytes) (start : Nat) : Bytes := buffer.drop start

/-- Message of the error thrown by the length check. -/
def formatMessage (min actual : Nat) : JSString :=
  js "Неверный формат данных (минимум " ++ numText min ++ js " байт, получено "
    ++ numText actual ++ js ")"

/-- Message of the error thrown when the decipher fails. -/
def authMessage : JSString :=
  js "Ошибка аутентификации: неверный пароль или поврежденные данные"

/-- Message of the error thrown for any other mode. -/
def modeMessage : JSString := js "mode должен быть \"encrypt\" или \"decrypt\""

/-- The function `cryptoSimple(data, password, mode)`. -/
def cryptoSimple (P : Prims) (d : Draws) (data password mode : JSString) : Outcome :=
  if mode = js "encrypt" then
    let salt := d.salt
    let key := P.pbkdf2 (utf8Encode password) salt iterations keyLength
    let iv := d.iv
    let plaintext := utf8Encode data
    let encrypted := (P.gcmSeal key iv plaintext).1
    let authTag := (P.gcmSeal key iv plaintext).2
    let result := salt ++ iv ++ authTag ++ encrypted
    { result := .ok (base64Encode result)
      calls := [.randomBytes saltLength,
        .pbkdf2 (utf8Encode password) salt iterations keyLength,
        .randomBytes ivLength, .cipher key iv plaintext] }
  else if mode = js "decrypt" then
    let buffer := base64Decode data
    if buffer.length < minLength then
      { result := .error (formatMessage minLength buffer.length), calls := [] }
    else
      let salt := subarray buffer 0 saltLength
      let iv := subarray buffer saltLength (saltLength + ivLength)
      let authTag := subarray buffer (saltLength + ivLength) (saltLength + ivLength + authTagLength)
      let encrypted := subarrayFrom buffer (saltLength + ivLength + authTagLength)
      let key := P.pbkdf2 (utf8Encode password) salt iterations keyLength
      let calls := [Call.pbkdf2 (utf8Encode password) salt iterations keyLength,
        Call.decipher key iv authTag encrypted]
      match P.gcmOpen key iv authTag encrypted with
      | some decrypted => { result := .ok (utf8Decode decrypted), calls := calls }
      | none => { result := .error authMessage, calls := calls }
  else { result := .error modeMessage, calls := [] }

/-! ## The batch loops of `main` -/

/-- The variables a batch loop updates: the `results` array, the lines written with
`console.log`, the counter `totalProcessed` (used by the loop over several columns only), and
the `crypto` calls made. -/
structure LoopState where
  results : List JSString
  console : List JSString
  totalProcessed : Nat
  calls : List Call

/-- The state before the first iteration. -/
def LoopState.empty : LoopState := ⟨[], [], 0, []⟩

/-- The entry pushed in a `catch` block. -/
def errorEntry (message : JSString) : JSString := js "ERROR: " ++ message

/-- One iteration of the loop of the sources 2 and 3, on the item of index `i`. -/
def batchBody (P : Prims) (draws : Nat → Draws) (password mode : JSString) (total : Nat)
    (i : Nat) (item : JSString) (st : LoopState) : LoopState :=
  let run := cryptoSimple P (draws i) item password mode
  match run.result with
  | .ok result =>
    { st with
      results := st.results ++ [result]
      console :=
        if (i + 1) % 100 = 0 then
          st.console ++ [js "   Обработано: " ++ numText (i + 1) ++ js "/" ++ numText total]
        else st.console
      calls := st.calls ++ run.calls }
  | .error message =>
    { st with
      results := st.results ++ [errorEntry message]
      console := st.console ++
        [js "⚠️  Ошибка на строке " ++ numText (i + 1) ++ js ": " ++ message]
      calls := st.calls ++ run.calls }

/-- The iterations `i, i + 1, …` of a loop over the items left. -/
def loopFrom (body : Nat → JSString → LoopState → LoopState) :
    Nat → List JSString → LoopState → LoopState
  | _, [], st => st
  | i, item :: rest, st => loopFrom body (i + 1) rest (body i item st)

/-- The loop `for (let i = 0; i < dataArray.length; i++)` of the sources 2 and 3; the `i`-th call
of `cryptoSimple` draws `draws i`. -/
def batchLoop (P : Prims) (draws : Nat → Draws) (password mode : JSString)
    (dataArray : List JSString) : LoopState :=
  loopFrom (batchBody P draws password mode dataArray.length) 0 dataArray LoopState.empty

/-- One iteration of the inner loop of source 4, for the column `columnName`. -/
def columnBody (P : Prims) (draws : Nat → Draws) (password mode columnName : JSString)
    (i : Nat) (item : JSString) (st : LoopState) : LoopState :=
  let run := cryptoSimple P (draws i) item password mode
  match run.result with
  | .ok result =>
    { st with
      results := st.results ++ [result]
      totalProcessed := st.totalProcessed + 1
      calls := st.calls ++ run.calls }
  | .error message =>
    { st with
      results := st.results ++ [errorEntry message]
      console := st.console ++
        [js "⚠️  Ошибка в столбце \"" ++ columnName ++ js "\", строка " ++ numText (i + 1)
          ++ js ": " ++ message]
      calls := st.calls ++ run.calls }

/-- The body of `for (const columnName of columnNames)`: `resultsObject[columnName] = []`, the
inner loop over `dataObject[columnName]`, and the two lines written around it. The state carries
the console, the counter and the calls from one column to the next. -/
def columnLoop (P : Prims) (draws : Nat → Draws) (password mode columnName : JSString)
    (dataArray : List JSString) (st : LoopState) : LoopState :=
  let st1 : LoopState :=
    { st with
      results := []
      console := st.console ++
        [js "📊 Обработка столбца \"" ++ columnName ++ js "\" (" ++ numText dataArray.length
          ++ js " строк)..."] }
  let st2 := loopFrom (columnBody P draws password mode columnName) 0 dataArray st1
  { st2 with console := st2.console ++ [js "✅ Столбец \"" ++ columnName ++ js "\" обработан\n"] }

/-- An object with string keys, as what reading a key gives: `get key` is the expression
`object[key]`, `none` for an absent key. The order in which an object lists its keys is not
part of the model. -/
structure JSObject (α : Type) where
  get : JSString → Option α

/-- The object literal without properties. -/
def JSObject.empty {α : Type} : JSObject α := ⟨fun _ => none⟩

/-- The assignment `object[key] = value`. -/
def JSObject.set {α : Type} (object : JSObject α) (key : JSString) (value : α) : JSObject α :=
  ⟨fun other => if other = key then some value else object.get other⟩

/-- The loop over the columns of source 4 from the column of index `c` on: `resultsObject` and
the state left by the columns done so far. The `i`-th call of `cryptoSimple` in the column of
index `c` draws `draws c i`. -/
def columnsFrom (P : Prims) (draws : Nat → Nat → Draws) (password mode : JSString)
    (dataObject : JSString → List JSString) :
    Nat → List JSString → JSObject (List JSString) × LoopState →
      JSObject (List JSString) × LoopState
  | _, [], acc => acc
  | c, columnName :: rest, acc =>
    let st := columnLoop P (draws c) password mode columnName (dataObject columnName) acc.2
    columnsFrom P draws password mode dataObject (c + 1) rest
      (acc.1.set columnName st.results, st)

/-- The loop `for (const columnName of columnNames)` of source 4. -/
def multiColumnLoop (P : Prims) (draws : Nat → Nat → Draws) (password mode : JSString)
    (dataObject : JSString → List JSString) (columnNames : List JSString) :
    JSObject (List JSString) × LoopState :=
  columnsFrom P draws password mode dataObject 0 columnNames (JSObject.empty, LoopState.empty)

/-! ## The entry of `main` -/

/-- White space and line terminators of ECMAScript, the code units `trim()` removes. -/
def isWhiteSpace (u : CodeUnit) : Bool :=
  u.val = 0x09 || u.val = 0x0A || u.val = 0x0B || u.val = 0x0C || u.val = 0x0D || u.val = 0x20
    || u.val = 0xA0 || u.val = 0x1680 || (0x2000 ≤ u.val && u.val ≤ 0x200A) || u.val = 0x2028
    || u.val = 0x2029 || u.val = 0x202F || u.val = 0x205F || u.val = 0x3000 || u.val = 0xFEFF

/-- The method `s.trim()`. -/
def jsTrim (s : JSString) : JSString :=
  ((s.dropWhile isWhiteSpace).reverse.dropWhile isWhiteSpace).reverse

/-- The test `!s || s.trim().length === 0` applied to the password and to the typed data. -/
def isBlank (s : JSString) : Bool := s.length = 0 || (jsTrim s).length = 0

/-- How a run of `main` ends. -/
inductive MainExit where
  /-- The line `❌ Пароль не может быть пустым!` and `return`. -/
  | emptyPassword
  /-- The line `❌ Данные не могут быть пустыми!` and `return`. -/
  | emptyData
  /-- The result of `cryptoSimple` is printed. -/
  | printed (result : JSString)
  /-- The outer `catch`: the line `❌ Ошибка: ${error.message}`. -/
  | failed (message : JSString)
  /-- One of the file sources 2, 3, 4, or the line for an invalid choice. -/
  | other
  deriving DecidableEq

/-- A run of `main`: how it ends and the `crypto` calls it made. -/
structure MainRun where
  exit : MainExit
  calls : List Call

/-- The function `main` up to and including source 1 (manual input), as a function of the answers
typed at the prompts. The branches of the file sources are the parameter `fileSources`, a function
of the password, the mode and the source choice. -/
def main (P : Prims) (d : Draws) (fileSources : JSString → JSString → JSString → MainRun)
    (modeChoice password sourceChoice data : JSString) : MainRun :=
  let mode := if jsTrim modeChoice = js "1" then js "encrypt" else js "decrypt"
  if isBlank password then { exit := .emptyPassword, calls := [] }
  else if jsTrim sourceChoice = js "1" then
    if isBlank data then { exit := .emptyData, calls := [] }
    else
      let run := cryptoSimple P d data password mode
      match run.result with
      | .ok result => { exit := .printed result, calls := run.calls }
      | .error message => { exit := .failed message, calls := run.calls }
  else fileSources password mode sourceChoice

/-! ## Properties assumed of the primitives, and a small instance -/

/-- The decipher returns what the cipher was given: `open(key, nonce, seal(key, nonce, p)) = p`. -/
def GcmSound (P : Prims) : Prop :=
  ∀ key iv plaintext,
    P.gcmOpen key iv (P.gcmSeal key iv plaintext).2 (P.gcmSeal key iv plaintext).1
      = some plaintext

/-- The cipher returns as many encrypted bytes as it was given, and a tag of `authTagLength`
bytes. -/
def GcmLengths (P : Prims) : Prop :=
  ∀ key iv plaintext,
    (P.gcmSeal key iv plaintext).1.length = plaintext.length
      ∧ (P.gcmSeal key iv plaintext).2.length = authTagLength

/-- The byte `b` with its bit `k` inverted (`k < 8`). -/
def flipByte (b : Byte) (k : Nat) : Byte := Fin.ofNat (b.val ^^^ 2 ^ k)

/-- The bytes `bs` with the bit `j` inverted, the bits counted from the first byte on. -/
def flipBit : Bytes → Nat → Bytes
  | [], _ => []
  | b :: rest, j => if j < 8 then flipByte b j :: rest else b :: flipBit rest (j - 8)

/-- For a key, a nonce and encrypted bytes the decipher accepts at most one tag: it compares
the tag it is given with the tag it computes. -/
def GcmTagUnique (P : Prims) : Prop :=
  ∀ key iv tag1 tag2 encrypted p1 p2,
    P.gcmOpen key iv tag1 encrypted = some p1 → P.gcmOpen key iv tag2 encrypted = some p2 →
      tag1 = tag2

/-- For a key, a tag and encrypted bytes the decipher accepts at most one nonce of 12 bytes: in
GCM the tag is the hash of the encrypted bytes masked with the encryption of the counter block
`nonce ‖ 00 00 00 01`, and the block cipher is a permutation. -/
def GcmNonceUnique (P : Prims) : Prop :=
  ∀ key iv1 iv2 tag encrypted p1 p2,
    iv1.length = 12 → iv2.length = 12 →
    P.gcmOpen key iv1 tag encrypted = some p1 → P.gcmOpen key iv2 tag encrypted = some p2 →
      iv1 = iv2

/-- Sum of the bytes, modulo 256. -/
def checksum : Bytes → Byte
  | [] => 0
  | b :: rest => b + checksum rest

/-- The tag of the small instance, 16 bytes: a checksum of key, nonce and encrypted bytes, then
the nonce, filled with zeros. -/
def toyTag (key iv encrypted : Bytes) : Bytes :=
  (checksum key + checksum iv + checksum encrypted) :: (iv ++ List.replicate 15 0).take 15

/-- A small instance of the primitives, for evaluating the definitions: the key is the salt
shifted by the checksum of the password, the encrypted bytes are the plaintext shifted by the
checksums of key and nonce, and the decipher accepts exactly the tag `toyTag`. -/
def toyPrims : Prims where
  pbkdf2 password salt _ keyLength := (salt.map (fun b => b + checksum password)).take keyLength
  gcmSeal key iv plaintext :=
    (plaintext.map (fun b => b + (checksum key + checksum iv)),
      toyTag key iv (plaintext.map (fun b => b + (checksum key + checksum iv))))
  gcmOpen key iv authTag encrypted :=
    if authTag = toyTag key iv encrypted then
      some (encrypted.map (fun b => b - (checksum key + checksum iv)))
    else none

/-- The draws of the examples: the bytes `1, 2, …, 32` and `101, 102, …, 112`. -/
def toyDraws : Draws where
  salt := (List.range 32).map (fun i => Fin.ofNat (i + 1))
  iv := (List.range 12).map (fun i => Fin.ofNat (i + 101))
  salt_length := by simp
  iv_length := by simp

/-- The text returned in `encrypt` mode, or the empty string when the call throws. -/
def sealedText (P : Prims) (d : Draws) (data password : JSString) : JSString :=
  match (cryptoSimple P d data password (js "encrypt")).result with
  | .ok text => text
  | .error _ => []

/-- The plaintext of the recorded example, `KEOSU^DZRF@@@@@@QVXG[]B[ZOJ]NA]U`. -/
def recordedText : JSString := js "KEOSU^DZRF@@@@@@QVXG[]B[ZOJ]NA]U"

/-- PBKDF2-HMAC-SHA512 (600000 iterations, 32 bytes) of the password `pw` and the salt
`1, 2, …, 32`. -/
def recordedKey : Bytes :=
  [100, 3, 192, 29, 48, 34, 136, 64, 123, 216, 73, 237, 232, 225, 86, 103, 165, 27, 240, 138, 26,
    177, 210, 119, 54, 35, 138, 129, 241, 159, 119, 78]

/-- PBKDF2-HMAC-SHA512 (600000 iterations, 32 bytes) of the password `pw` and the salt
`0, 2, 3, …, 32`, the salt above with the lowest bit of its first byte inverted. -/
def recordedKey2 : Bytes :=
  [37, 5, 228, 126, 246, 36, 140, 107, 81, 192, 17, 238, 164, 56, 81, 15, 44, 69, 162, 17, 159,
    15, 188, 21, 153, 75, 6, 204, 100, 100, 213, 226]

/-- The encrypted bytes AES-256-GCM gives for `recordedText` under `recordedKey` and the nonce
`101, 102, …, 112`. -/
def recordedEncrypted : Bytes :=
  [131, 80, 254, 196, 176, 101, 178, 69, 137, 75, 244, 75, 228, 84, 213, 182, 146, 34, 89, 91,
    241, 249, 184, 130, 88, 13, 122, 1, 163, 54, 44, 145]

/-- The 16-byte tag AES-256-GCM gives for `recordedText` under `recordedKey` and the nonce
`101, 102, …, 112`. -/
def recordedTag : Bytes :=
  [229, 234, 94, 157, 76, 0, 53, 55, 81, 194, 89, 211, 2, 89, 56, 22]

/-- The bytes AES-256-GCM returns for `recordedEncrypted` and `recordedTag` under `recordedKey2`
and the same nonce: the tag is valid under that key too. -/
def recordedDecrypted2 : Bytes :=
  [47, 253, 141, 115, 85, 206, 110, 197, 199, 43, 128, 194, 205, 93, 220, 254, 188, 70, 24, 186,
    112, 0, 103, 4, 160, 195, 38, 168, 78, 42, 100, 18]

/-- The values of `crypto.pbkdf2Sync` and of the AES-256-GCM cipher and decipher at the inputs of
one recorded example (password `pw`, salt `1, …, 32`, nonce `101, …, 112`, plaintext
`recordedText`), as the primitives compute them; at every other input this instance derives the
empty key, encrypts to nothing and accepts nothing. -/
def recordedPrims : Prims where
  pbkdf2 password salt _ _ :=
    if password = utf8Encode (js "pw") ∧ salt = (List.range 32).map (fun i => Fin.ofNat (i + 1))
    then recordedKey
    else if password = utf8Encode (js "pw")
        ∧ salt = 0 :: (List.range 31).map (fun i => Fin.ofNat (i + 2))
    then recordedKey2
    else []
  gcmSeal key iv plaintext :=
    if key = recordedKey ∧ iv = (List.range 12).map (fun i => Fin.ofNat (i + 101))
        ∧ plaintext = utf8Encode recordedText
    then (recordedEncrypted, recordedTag)
    else ([], [])
  gcmOpen key iv authTag encrypted :=
    if iv = (List.range 12).map (fun i => Fin.ofNat (i + 101)) ∧ authTag = recordedTag
        ∧ encrypted = recordedEncrypted then
      if key = recordedKey then some (utf8Encode recordedText)
      else if key = recordedKey2 then some recordedDecrypted2
      else none
    else none

/-- A character that the decoder reads neither as a character of a base64 alphabet nor as the
padding `=`. -/
def isForeign (c : CodeUnit) : Bool := (unbase64 c).isNone && !readsAsPad c

/-- The entry a batch loop records for a call of `cryptoSimple`: the returned text, or the error
marker for the message thrown. -/
def resultEntry (o : Outcome) : JSString :=
  match o.result with
  | .ok text => text
  | .error message => errorEntry message

/-- The list of `f i x` for the items `x` of a list, `i` counting from `start`. -/
def mapIdxFrom {α β : Type} (f : Nat → α → β) : Nat → List α → List β
  | _, [] => []
  | start, x :: xs => f start x :: mapIdxFrom f (start + 1) xs
/-! ### base64 round trip -/

theorem sextets_lt : ∀ (bs : Bytes), ∀ i ∈ sextets bs, i < 64
  | a :: b :: c :: rest => by
      intro i hi
      simp only [sextets, List.mem_cons] at hi
      rcases hi with h | h | h | h | h
      · omega
      · omega
      · omega
      · omega
      · exact sextets_lt rest i h
  | [a, b] => by
      intro i hi
      simp only [sextets, List.mem_cons, List.mem_singleton, List.not_mem_nil, or_false] at hi
      omega
  | [a] => by
      intro i hi
      simp only [sextets, List.mem_cons, List.mem_singleton, List.not_mem_nil, or_false] at hi
      omega
  | [] => by
      intro i hi
      simp [sextets] at hi

theorem unbase64_b64Char (i : Nat) (h : i < 64) : unbase64 (b64Char i) = some i := by
  revert i
  decide

theorem b64Char_not_pad (i : Nat) (h : i < 64) : readsAsPad (b64Char i) = false := by
  revert i
  decide

theorem unsextets_sextets : ∀ (bs : Bytes), unsextets (sextets bs) = bs
  | a :: b :: c :: rest => by
      have ha := a.isLt
      have hb := b.isLt
      have hc := c.isLt
      simp only [sextets, unsextets, unsextets_sextets rest]
      congr 1
      · apply Fin.ext
        simp only [Fin.ofNat, Fin.val_mk]
        omega
      congr 1
      · apply Fin.ext
        simp only [Fin.ofNat, Fin.val_mk]
        omega
      congr 1
      · apply Fin.ext
        simp only [Fin.ofNat, Fin.val_mk]
        omega
  | [a, b] => by
      have ha := a.isLt
      have hb := b.isLt
      simp only [sextets, unsextets]
      congr 1
      · apply Fin.ext
        simp only [Fin.ofNat, Fin.val_mk]
        omega
      congr 1
      · apply Fin.ext
        simp only [Fin.ofNat, Fin.val_mk]
        omega
  | [a] => by
      have ha := a.isLt
      simp only [sextets, unsextets]
      congr 1
      · apply Fin.ext
        simp only [Fin.ofNat, Fin.val_mk]
        omega
  | [] => rfl

theorem filterMap_unbase64_b64Char :
    ∀ (l : List Nat), (∀ i ∈ l, i < 64) → (l.map b64Char).filterMap unbase64 = l
  | [], _ => rfl
  | i :: l, h => by
      have hi : i < 64 := h i (List.mem_cons_self i l)
      have hl : ∀ j ∈ l, j < 64 := fun j hj => h j (List.mem_cons_of_mem i hj)
      simp only [List.map_cons, List.filterMap_cons, unbase64_b64Char i hi,
        filterMap_unbase64_b64Char l hl]

/-- The lenient decoder inverts the encoder. -/
theorem base64Decode_base64Encode (bs : Bytes) : base64Decode (base64Encode bs) = bs := by
  unfold base64Decode base64Encode
  have h1 : ∀ c ∈ (sextets bs).map b64Char, (fun c => !readsAsPad c) c = true := by
    intro c hc
    rcases List.mem_map.1 hc with ⟨i, hi, rfl⟩
    simp only [b64Char_not_pad i (sextets_lt bs i hi), Bool.not_false]
  have h2 : readsAsPad b64Pad = true := by decide
  rw [List.takeWhile_append_of_pos h1, List.takeWhile_replicate]
  simp only [h2, Bool.not_true, Bool.false_eq_true, if_false, List.append_nil]
  rw [filterMap_unbase64_b64Char _ (sextets_lt bs), unsextets_sextets]

theorem base64Encode_injective (a b : Bytes) (h : base64Encode a = base64Encode b) : a = b := by
  rw [← base64Decode_base64Encode a, ← base64Decode_base64Encode b, h]

/-! ### UTF-8 round trip -/

theorem byte_val_ofNat (x : Nat) (h : x < 256) : (Fin.ofNat x : Byte).val = x := by
  simp only [Fin.ofNat, Fin.val_mk]
  omega

theorem utf8Step_lead (b : Nat) : utf8Step Utf8State.init b = utf8Lead b := by
  simp [utf8Step, Utf8State.init]

theorem utf8Step_mid (n c lo hi b : Nat) (h : lo ≤ b ∧ b ≤ hi) :
    utf8Step ⟨n + 2, c, lo, hi⟩ b = (⟨n + 1, c * 64 + b % 64, 0x80, 0xBF⟩, []) := by
  simp only [utf8Step]
  rw [if_neg (by omega), if_neg (by omega), if_neg (by omega)]
  rfl

theorem utf8Step_last (c lo hi b : Nat) (h : lo ≤ b ∧ b ≤ hi) :
    utf8Step ⟨1, c, lo, hi⟩ b = (Utf8State.init, utf16Units (c * 64 + b % 64)) := by
  simp only [utf8Step]
  rw [if_neg (by omega), if_neg (by omega), if_pos trivial]

theorem utf8DecodeFrom_utf8Bytes (cp : Nat) (rest : Bytes) (h : cp < 0x110000)
    (hs : ¬(0xD800 ≤ cp ∧ cp < 0xE000)) :
    utf8DecodeFrom Utf8State.init (utf8Bytes cp ++ rest)
      = utf16Units cp ++ utf8DecodeFrom Utf8State.init rest := by
  unfold utf8Bytes
  by_cases h1 : cp < 0x80
  · rw [if_pos h1]
    simp only [List.cons_append, List.nil_append, utf8DecodeFrom, utf8Step_lead,
      byte_val_ofNat cp (by omega)]
    have e : utf8Lead cp = (Utf8State.init, utf16Units cp) := by
      simp only [utf8Lead, utf16Units]
      rw [if_pos (by omega), if_pos (by omega)]
    rw [e]
    rfl
  rw [if_neg h1]
  by_cases h2 : cp < 0x800
  · rw [if_pos h2]
    simp only [List.cons_append, List.nil_append, utf8DecodeFrom, utf8Step_lead,
      byte_val_ofNat (0xC0 + cp / 64) (by omega), byte_val_ofNat (0x80 + cp % 64) (by omega)]
    have e : utf8Lead (0xC0 + cp / 64) = (⟨1, cp / 64, 0x80, 0xBF⟩, []) := by
      simp only [utf8Lead]
      rw [if_neg (by omega), if_pos (by omega)]
      congr 2
      omega
    rw [e]
    simp only [utf8Step_last _ _ _ _ (show 0x80 ≤ 0x80 + cp % 64 ∧ 0x80 + cp % 64 ≤ 0xBF by omega),
      List.nil_append]
    congr 2
    omega
  rw [if_neg h2]
  by_cases h3 : cp < 0x10000
  · rw [if_pos h3]
    simp only [List.cons_append, List.nil_append, utf8DecodeFrom, utf8Step_lead,
      byte_val_ofNat (0xE0 + cp / 4096) (by omega),
      byte_val_ofNat (0x80 + cp / 64 % 64) (by omega),
      byte_val_ofNat (0x80 + cp % 64) (by omega)]
    have e : utf8Lead (0xE0 + cp / 4096)
        = (⟨2, cp / 4096, if cp < 4096 then 0xA0 else 0x80,
            if 0xD000 ≤ cp ∧ cp < 0xE000 then 0x9F else 0xBF⟩, []) := by
      simp only [utf8Lead]
      rw [if_neg (by omega), if_neg (by omega), if_pos (by omega)]
      congr 2
      · omega
      · congr 1
        apply propext
        constructor <;> intro _ <;> omega
      · congr 1
        apply propext
        constructor <;> intro _ <;> omega
    rw [e]
    have r1 : (if cp < 4096 then 0xA0 else 0x80) ≤ 0x80 + cp / 64 % 64 ∧
        0x80 + cp / 64 % 64 ≤ (if 0xD000 ≤ cp ∧ cp < 0xE000 then 0x9F else 0xBF) := by
      split_ifs <;> omega
    simp only [utf8Step_mid 0 _ _ _ _ r1, List.nil_append,
      utf8Step_last _ _ _ _ (show 0x80 ≤ 0x80 + cp % 64 ∧ 0x80 + cp % 64 ≤ 0xBF by omega)]
    congr 2
    omega
  rw [if_neg h3]
  simp only [List.cons_append, List.nil_append, utf8DecodeFrom, utf8Step_lead,
    byte_val_ofNat (0xF0 + cp / 262144) (by omega),
    byte_val_ofNat (0x80 + cp / 4096 % 64) (by omega),
    byte_val_ofNat (0x80 + cp / 64 % 64) (by omega),
    byte_val_ofNat (0x80 + cp % 64) (by omega)]
  have e : utf8Lead (0xF0 + cp / 262144)
      = (⟨3, cp / 262144, if cp < 262144 then 0x90 else 0x80,
          if 0x100000 ≤ cp then 0x8F else 0xBF⟩, []) := by
    simp only [utf8Lead]
    rw [if_neg (by omega), if_neg (by omega), if_neg (by omega), if_pos (by omega)]
    congr 2
    · omega
    · congr 1
      apply propext
      constructor <;> intro _ <;> omega
    · congr 1
      apply propext
      constructor <;> intro _ <;> omega
  rw [e]
  have r1 : (if cp < 262144 then 0x90 else 0x80) ≤ 0x80 + cp / 4096 % 64 ∧
      0x80 + cp / 4096 % 64 ≤ (if 0x100000 ≤ cp then 0x8F else 0xBF) := by
    split_ifs <;> omega
  simp only [utf8Step_mid 1 _ _ _ _ r1, List.nil_append,
    utf8Step_mid 0 _ _ _ _ (show 0x80 ≤ 0x80 + cp / 64 % 64 ∧ 0x80 + cp / 64 % 64 ≤ 0xBF by omega),
    utf8Step_last _ _ _ _ (show 0x80 ≤ 0x80 + cp % 64 ∧ 0x80 + cp % 64 ≤ 0xBF by omega)]
  congr 2
  omega


theorem utf16Units_unit (u : CodeUnit) : utf16Units u.val = [u] := by
  have hu := u.isLt
  simp only [utf16Units]
  rw [if_pos (by omega)]
  refine congrArg₂ List.cons (Fin.ext ?_) rfl
  simp only [Fin.ofNat, Fin.val_mk]
  omega

theorem utf16Units_pair (u l : CodeUnit) (hu : isHighSurrogate u = true)
    (hl : isLowSurrogate l = true) :
    utf16Units (0x10000 + (u.val - 0xD800) * 1024 + (l.val - 0xDC00)) = [u, l] := by
  simp only [isHighSurrogate, isLowSurrogate, Bool.and_eq_true, decide_eq_true_eq] at hu hl
  simp only [utf16Units]
  rw [if_neg (by omega)]
  have hu2 := u.isLt
  have hl2 := l.isLt
  refine congrArg₂ List.cons (Fin.ext ?_) (congrArg₂ List.cons (Fin.ext ?_) rfl)
  · simp only [Fin.ofNat, Fin.val_mk]
    omega
  · simp only [Fin.ofNat, Fin.val_mk]
    omega

theorem utf8DecodeFrom_utf8Unit (u : CodeUnit) (rest : Bytes)
    (h : (isHighSurrogate u || isLowSurrogate u) = false) :
    utf8DecodeFrom Utf8State.init (utf8Unit u ++ rest)
      = u :: utf8DecodeFrom Utf8State.init rest := by
  have hu := u.isLt
  have h2 := h
  simp only [isHighSurrogate, isLowSurrogate, Bool.or_eq_false_iff, Bool.and_eq_false_iff,
    decide_eq_false_iff_not] at h2
  simp only [utf8Unit, h, Bool.false_eq_true, if_false]
  rw [utf8DecodeFrom_utf8Bytes u.val rest (by omega) (by omega), utf16Units_unit]
  rfl

/-- Decoding the UTF-8 bytes of a string without unpaired surrogates gives the string back. -/
theorem utf8Decode_utf8Encode : ∀ (s : JSString), wellFormed s = true →
    utf8Decode (utf8Encode s) = s
  | [], _ => rfl
  | [u], h => by
      simp only [wellFormed, Bool.not_eq_true'] at h
      have := utf8DecodeFrom_utf8Unit u [] h
      simpa [utf8Decode, utf8Encode, utf8DecodeFrom, Utf8State.init] using this
  | u :: l :: rest, h => by
      unfold utf8Decode
      by_cases hp : (isHighSurrogate u && isLowSurrogate l) = true
      · simp only [wellFormed, hp, if_true] at h
        have ih := utf8Decode_utf8Encode rest h
        unfold utf8Decode at ih
        have hp2 := hp
        simp only [Bool.and_eq_true] at hp2
        have hu := hp2.1
        have hl := hp2.2
        simp only [isHighSurrogate, isLowSurrogate, Bool.and_eq_true, decide_eq_true_eq] at hu hl
        simp only [utf8Encode, hp, if_true]
        rw [utf8DecodeFrom_utf8Bytes _ _ (by omega) (by omega), ih,
          utf16Units_pair u l hp2.1 hp2.2]
        rfl
      · simp only [wellFormed, hp, Bool.false_eq_true, if_false, Bool.and_eq_true,
          Bool.not_eq_true'] at h
        have ih := utf8Decode_utf8Encode (l :: rest) h.2
        unfold utf8Decode at ih
        simp only [utf8Encode, hp, Bool.false_eq_true, if_false]
        rw [utf8DecodeFrom_utf8Unit u _ h.1, ih]


/-! ### cryptoSimple, mode by mode -/

theorem cryptoSimple_encrypt (P : Prims) (d : Draws) (data password : JSString) :
    cryptoSimple P d data password (js "encrypt")
      = { result := .ok (base64Encode (d.salt ++ d.iv
            ++ (P.gcmSeal (P.pbkdf2 (utf8Encode password) d.salt iterations keyLength) d.iv
                (utf8Encode data)).2
            ++ (P.gcmSeal (P.pbkdf2 (utf8Encode password) d.salt iterations keyLength) d.iv
                (utf8Encode data)).1))
          calls := [.randomBytes saltLength,
            .pbkdf2 (utf8Encode password) d.salt iterations keyLength,
            .randomBytes ivLength,
            .cipher (P.pbkdf2 (utf8Encode password) d.salt iterations keyLength) d.iv
              (utf8Encode data)] } := by
  unfold cryptoSimple
  rw [if_pos rfl]

theorem cryptoSimple_decrypt_short (P : Prims) (d : Draws) (data password : JSString)
    (h : (base64Decode data).length < 61) :
    cryptoSimple P d data password (js "decrypt")
      = { result := .error (formatMessage 61 (base64Decode data).length), calls := [] } := by
  unfold cryptoSimple
  rw [if_neg (by decide), if_pos rfl]
  simp only []
  rw [if_pos (by simpa [minLength, saltLength, ivLength, authTagLength] using h)]
  rfl

theorem cryptoSimple_decrypt_long (P : Prims) (d : Draws) (data password : JSString)
    (h : 61 ≤ (base64Decode data).length) :
    cryptoSimple P d data password (js "decrypt")
      = match P.gcmOpen (P.pbkdf2 (utf8Encode password) ((base64Decode data).take 32)
            iterations keyLength)
          (((base64Decode data).drop 32).take 12) (((base64Decode data).drop 44).take 16)
          ((base64Decode data).drop 60) with
        | some decrypted =>
          { result := .ok (utf8Decode decrypted)
            calls := [.pbkdf2 (utf8Encode password) ((base64Decode data).take 32)
                iterations keyLength,
              .decipher (P.pbkdf2 (utf8Encode password) ((base64Decode data).take 32)
                  iterations keyLength)
                (((base64Decode data).drop 32).take 12) (((base64Decode data).drop 44).take 16)
                ((base64Decode data).drop 60)] }
        | none =>
          { result := .error authMessage
            calls := [.pbkdf2 (utf8Encode password) ((base64Decode data).take 32)
                iterations keyLength,
              .decipher (P.pbkdf2 (utf8Encode password) ((base64Decode data).take 32)
                  iterations keyLength)
                (((base64Decode data).drop 32).take 12) (((base64Decode data).drop 44).take 16)
                ((base64Decode data).drop 60)] } := by
  unfold cryptoSimple
  rw [if_neg (by decide), if_pos rfl]
  simp only []
  rw [if_neg (by simpa [minLength, saltLength, ivLength, authTagLength] using h)]
  simp only [subarray, subarrayFrom, saltLength, ivLength, authTagLength, List.drop_zero,
    List.drop_take]

theorem formatMessage_head (min actual : Nat) :
    (formatMessage min actual).head? = some 1053 := by
  rfl

theorem authMessage_ne_formatMessage (min actual : Nat) :
    authMessage ≠ formatMessage min actual := by
  intro h
  have h1 := formatMessage_head min actual
  rw [← h] at h1
  revert h1
  decide

/-! ### The layout `salt ++ iv ++ authTag ++ encrypted` -/

theorem envelope_split (salt iv tag enc : Bytes) (hs : salt.length = 32) (hi : iv.length = 12)
    (ht : tag.length = 16) :
    (salt ++ iv ++ tag ++ enc).take 32 = salt
      ∧ ((salt ++ iv ++ tag ++ enc).drop 32).take 12 = iv
      ∧ ((salt ++ iv ++ tag ++ enc).drop 44).take 16 = tag
      ∧ (salt ++ iv ++ tag ++ enc).drop 60 = enc := by
  have e1 : salt ++ iv ++ tag ++ enc = salt ++ (iv ++ (tag ++ enc)) := by
    simp only [List.append_assoc]
  have e2 : salt ++ iv ++ tag ++ enc = (salt ++ iv) ++ (tag ++ enc) := by
    simp only [List.append_assoc]
  have e3 : salt ++ iv ++ tag ++ enc = (salt ++ iv ++ tag) ++ enc := rfl
  have hsi : (salt ++ iv).length = 44 := by simp [hs, hi]
  have hsit : (salt ++ iv ++ tag).length = 60 := by simp [hs, hi, ht]
  refine ⟨?_, ?_, ?_, ?_⟩
  · rw [e1, List.take_left' hs]
  · rw [e1, List.drop_left' hs, List.take_left' hi]
  · rw [e2, List.drop_left' hsi, List.take_left' ht]
  · rw [e3, List.drop_left' hsit]

theorem envelope_length (salt iv tag enc : Bytes) (hs : salt.length = 32) (hi : iv.length = 12)
    (ht : tag.length = 16) : (salt ++ iv ++ tag ++ enc).length = 60 + enc.length := by
  simp only [List.length_append, hs, hi, ht]

/-- The `decrypt` branch on the encoding of `salt ++ iv ++ tag ++ enc` with regions of the
lengths 32, 12, 16 and at least 1: the key is derived from `salt` and the decipher is run on
`iv`, `tag` and `enc`. -/
theorem cryptoSimple_decrypt_envelope (P : Prims) (d : Draws) (salt iv tag enc : Bytes)
    (password : JSString) (hs : salt.length = 32) (hi : iv.length = 12) (ht : tag.length = 16)
    (he : 1 ≤ enc.length) :
    cryptoSimple P d (base64Encode (salt ++ iv ++ tag ++ enc)) password (js "decrypt")
      = match P.gcmOpen (P.pbkdf2 (utf8Encode password) salt iterations keyLength) iv tag enc with
        | some decrypted =>
          { result := .ok (utf8Decode decrypted)
            calls := [.pbkdf2 (utf8Encode password) salt iterations keyLength,
              .decipher (P.pbkdf2 (utf8Encode password) salt iterations keyLength) iv tag enc] }
        | none =>
          { result := .error authMessage
            calls := [.pbkdf2 (utf8Encode password) salt iterations keyLength,
              .decipher (P.pbkdf2 (utf8Encode password) salt iterations keyLength) iv tag enc] } := by
  obtain ⟨s1, s2, s3, s4⟩ := envelope_split salt iv tag enc hs hi ht
  have hlen := envelope_length salt iv tag enc hs hi ht
  rw [cryptoSimple_decrypt_long _ _ _ _ (by rw [base64Decode_base64Encode, hlen]; omega)]
  simp only [base64Decode_base64Encode, s1, s2, s3, s4]

theorem utf8Bytes_ne_nil (cp : Nat) : utf8Bytes cp ≠ [] := by
  unfold utf8Bytes
  split_ifs <;> simp

theorem utf8Unit_ne_nil (u : CodeUnit) : utf8Unit u ≠ [] := by
  unfold utf8Unit
  split_ifs
  · simp [replacementBytes]
  · exact utf8Bytes_ne_nil _

theorem utf8Encode_ne_nil : ∀ (s : JSString), s ≠ [] → utf8Encode s ≠ []
  | [], h => absurd rfl h
  | [u], _ => by
      simpa [utf8Encode] using utf8Unit_ne_nil u
  | u :: l :: rest, _ => by
      unfold utf8Encode
      split_ifs
      · intro h
        exact utf8Bytes_ne_nil _ (List.append_eq_nil.1 h).1
      · intro h
        exact utf8Unit_ne_nil _ (List.append_eq_nil.1 h).1

/-! ### The lenient decoder skips foreign characters -/

theorem filterMap_takeWhile_filter_foreign : ∀ (s : JSString),
    ((s.filter (fun c => !isForeign c)).takeWhile (fun c => !readsAsPad c)).filterMap unbase64
      = (s.takeWhile (fun c => !readsAsPad c)).filterMap unbase64
  | [] => rfl
  | c :: s => by
      have ih := filterMap_takeWhile_filter_foreign s
      cases hp : readsAsPad c with
      | true =>
        have hf : isForeign c = false := by
          simp [isForeign, hp]
        simp [List.filter_cons, hf, List.takeWhile_cons, hp]
      | false =>
        cases hu : unbase64 c with
        | none =>
          have hf : isForeign c = true := by
            simp [isForeign, hu, hp]
          simp only [List.filter_cons, hf, Bool.not_true, Bool.false_eq_true, if_false,
            List.takeWhile_cons, hp, Bool.not_false, if_true, List.filterMap_cons, hu]
          exact ih
        | some v =>
          have hf : isForeign c = false := by
            simp [isForeign, hu]
          simp only [List.filter_cons, hf, Bool.not_false, if_true,
            List.takeWhile_cons, hp, List.filterMap_cons, hu]
          rw [ih]

theorem base64Decode_filter_foreign (s : JSString) :
    base64Decode (s.filter (fun c => !isForeign c)) = base64Decode s := by
  unfold base64Decode
  rw [filterMap_takeWhile_filter_foreign]

theorem cryptoSimple_decrypt_congr (P : Prims) (d : Draws) (data1 data2 password : JSString)
    (h : base64Decode data1 = base64Decode data2) :
    cryptoSimple P d data1 password (js "decrypt")
      = cryptoSimple P d data2 password (js "decrypt") := by
  have e : js "decrypt" ≠ js "encrypt" := by decide
  simp only [cryptoSimple, if_neg e, if_true, h]

theorem decrypt_len_not_format (P : Prims) (d : Draws) (data password : JSString)
    (h : 61 ≤ (base64Decode data).length) (min actual : Nat) :
    (cryptoSimple P d data password (js "decrypt")).result
      ≠ .error (formatMessage min actual) := by
  rw [cryptoSimple_decrypt_long P d data password h]
  split
  · intro e
    cases e
  · intro e
    exact authMessage_ne_formatMessage min actual (Except.error.inj e)

theorem isForeign_b64Char (i : Nat) (h : i < 64) : isForeign (b64Char i) = false := by
  simp [isForeign, unbase64_b64Char i h]

theorem base64Encode_not_foreign (bs : Bytes) : ∀ c ∈ base64Encode bs, isForeign c = false := by
  intro c hc
  unfold base64Encode at hc
  rcases List.mem_append.1 hc with h | h
  · rcases List.mem_map.1 h with ⟨i, hi, rfl⟩
    exact isForeign_b64Char i (sextets_lt bs i hi)
  · rw [(List.mem_replicate.1 h).2]
    decide

theorem base64Encode_head_ne_foreign (bs : Bytes) (c : CodeUnit) (hc : isForeign c = true)
    (h : (base64Encode bs).head? = some c) : False := by
  have hm : c ∈ base64Encode bs := List.mem_of_mem_head? h
  rw [base64Encode_not_foreign bs c hm] at hc
  cases hc

/-! ### The batch loops -/

theorem mapIdxFrom_length {α β : Type} (f : Nat → α → β) :
    ∀ (start : Nat) (xs : List α), (mapIdxFrom f start xs).length = xs.length
  | _, [] => rfl
  | start, x :: xs => by
      simp only [mapIdxFrom, List.length_cons, mapIdxFrom_length f (start + 1) xs]

theorem mapIdxFrom_getElem? {α β : Type} (f : Nat → α → β) :
    ∀ (start : Nat) (xs : List α) (k : Nat),
      (mapIdxFrom f start xs)[k]? = (xs[k]?).map (f (start + k))
  | _, [], k => by simp [mapIdxFrom]
  | start, x :: xs, 0 => by simp [mapIdxFrom]
  | start, x :: xs, k + 1 => by
      have e : start + 1 + k = start + (k + 1) := by omega
      simp only [mapIdxFrom, List.getElem?_cons_succ, mapIdxFrom_getElem? f (start + 1) xs k, e]

theorem loopFrom_results (body : Nat → JSString → LoopState → LoopState)
    (f : Nat → JSString → JSString)
    (hb : ∀ i item st, (body i item st).results = st.results ++ [f i item]) :
    ∀ (items : List JSString) (i : Nat) (st : LoopState),
      (loopFrom body i items st).results = st.results ++ mapIdxFrom f i items
  | [], i, st => by simp [loopFrom, mapIdxFrom]
  | item :: rest, i, st => by
      simp only [loopFrom, mapIdxFrom, loopFrom_results body f hb rest (i + 1), hb,
        List.append_assoc, List.singleton_append]

theorem batchBody_results (P : Prims) (draws : Nat → Draws) (password mode : JSString)
    (total i : Nat) (item : JSString) (st : LoopState) :
    (batchBody P draws password mode total i item st).results
      = st.results ++ [resultEntry (cryptoSimple P (draws i) item password mode)] := by
  unfold batchBody resultEntry
  cases h : (cryptoSimple P (draws i) item password mode).result <;> simp only [h]

theorem columnBody_results (P : Prims) (draws : Nat → Draws)
    (password mode columnName : JSString) (i : Nat) (item : JSString) (st : LoopState) :
    (columnBody P draws password mode columnName i item st).results
      = st.results ++ [resultEntry (cryptoSimple P (draws i) item password mode)] := by
  unfold columnBody resultEntry
  cases h : (cryptoSimple P (draws i) item password mode).result <;> simp only [h]

theorem batchLoop_results (P : Prims) (draws : Nat → Draws) (password mode : JSString)
    (dataArray : List JSString) :
    (batchLoop P draws password mode dataArray).results
      = mapIdxFrom (fun i item => resultEntry (cryptoSimple P (draws i) item password mode))
          0 dataArray := by
  unfold batchLoop
  rw [loopFrom_results _ _ (batchBody_results P draws password mode dataArray.length)]
  rfl

theorem columnLoop_results (P : Prims) (draws : Nat → Draws)
    (password mode columnName : JSString) (dataArray : List JSString) (st : LoopState) :
    (columnLoop P draws password mode columnName dataArray st).results
      = mapIdxFrom (fun i item => resultEntry (cryptoSimple P (draws i) item password mode))
          0 dataArray := by
  unfold columnLoop
  simp only []
  rw [loopFrom_results _ _ (columnBody_results P draws password mode columnName)]
  rfl

theorem JSObject.get_set_same {α : Type} (o : JSObject α) (key : JSString) (value : α) :
    (o.set key value).get key = some value := by
  simp only [JSObject.set, if_true]

theorem JSObject.get_set_other {α : Type} (o : JSObject α) (key other : JSString) (value : α)
    (h : other ≠ key) : (o.set key value).get other = o.get other := by
  simp only [JSObject.set, if_neg h]

theorem columnsFrom_get_of_not_mem (P : Prims) (draws : Nat → Nat → Draws)
    (password mode : JSString) (dataObject : JSString → List JSString) (name : JSString) :
    ∀ (rest : List JSString) (c : Nat) (acc : JSObject (List JSString) × LoopState),
      name ∉ rest →
        (columnsFrom P draws password mode dataObject c rest acc).1.get name = acc.1.get name
  | [], _, _, _ => rfl
  | col :: rest, c, acc, h => by
      have h1 : name ≠ col := fun e => h (e ▸ List.mem_cons_self _ _)
      have h2 : name ∉ rest := fun e => h (List.mem_cons_of_mem _ e)
      simp only [columnsFrom]
      rw [columnsFrom_get_of_not_mem P draws password mode dataObject name rest (c + 1) _ h2]
      exact JSObject.get_set_other _ _ _ _ h1

theorem columnsFrom_get_of_mem (P : Prims) (draws : Nat → Nat → Draws)
    (password mode : JSString) (dataObject : JSString → List JSString) (name : JSString) :
    ∀ (rest : List JSString) (c : Nat) (acc : JSObject (List JSString) × LoopState),
      name ∈ rest →
        ∃ k, rest[k]? = some name
          ∧ (columnsFrom P draws password mode dataObject c rest acc).1.get name
            = some (mapIdxFrom
                (fun i item => resultEntry (cryptoSimple P (draws (c + k) i) item password mode))
                0 (dataObject name))
  | [], _, _, h => absurd h (List.not_mem_nil _)
  | col :: rest, c, acc, h => by
      by_cases hr : name ∈ rest
      · obtain ⟨k, hk, hg⟩ :=
          columnsFrom_get_of_mem P draws password mode dataObject name rest (c + 1)
            ((acc.1.set col (columnLoop P (draws c) password mode col (dataObject col)
              acc.2).results), columnLoop P (draws c) password mode col (dataObject col) acc.2) hr
        refine ⟨k + 1, by simpa using hk, ?_⟩
        have e : c + (k + 1) = c + 1 + k := by omega
        simp only [columnsFrom, e]
        exact hg
      · have hc : name = col := by
          rcases List.mem_cons.1 h with h1 | h1
          · exact h1
          · exact absurd h1 hr
        subst hc
        refine ⟨0, by simp, ?_⟩
        simp only [columnsFrom, Nat.add_zero]
        rw [columnsFrom_get_of_not_mem P draws password mode dataObject name rest (c + 1) _ hr,
          JSObject.get_set_same, columnLoop_results]

theorem loopFrom_console_mono (body : Nat → JSString → LoopState → LoopState)
    (hmono : ∀ i item st line, line ∈ st.console → line ∈ (body i item st).console)
    (line : JSString) :
    ∀ (items : List JSString) (i : Nat) (st : LoopState),
      line ∈ st.console → line ∈ (loopFrom body i items st).console
  | [], _, _, h => h
  | item :: rest, i, st, h =>
      loopFrom_console_mono body hmono line rest (i + 1) (body i item st) (hmono i item st line h)

theorem loopFrom_console_mem (body : Nat → JSString → LoopState → LoopState)
    (hmono : ∀ i item st line, line ∈ st.console → line ∈ (body i item st).console)
    (line item : JSString) :
    ∀ (items : List JSString) (i k : Nat) (st : LoopState),
      items[k]? = some item → (∀ st2, line ∈ (body (i + k) item st2).console) →
        line ∈ (loopFrom body i items st).console
  | [], _, _, _, h, _ => by simp at h
  | first :: rest, i, 0, st, h, hline => by
      simp only [List.getElem?_cons_zero, Option.some.injEq] at h
      subst h
      exact loopFrom_console_mono body hmono line rest (i + 1) _ (hline st)
  | first :: rest, i, k + 1, st, h, hline => by
      simp only [List.getElem?_cons_succ] at h
      have e : i + (k + 1) = i + 1 + k := by omega
      rw [e] at hline
      exact loopFrom_console_mem body hmono line item rest (i + 1) k _ h hline

theorem batchBody_console_mono (P : Prims) (draws : Nat → Draws) (password mode : JSString)
    (total i : Nat) (item : JSString) (st : LoopState) (line : JSString)
    (h : line ∈ st.console) :
    line ∈ (batchBody P draws password mode total i item st).console := by
  unfold batchBody
  cases hr : (cryptoSimple P (draws i) item password mode).result
  · simp only [hr]
    exact List.mem_append_left _ h
  · simp only [hr]
    split_ifs
    · exact List.mem_append_left _ h
    · exact h

theorem columnBody_console_mono (P : Prims) (draws : Nat → Draws)
    (password mode columnName : JSString) (i : Nat) (item : JSString) (st : LoopState)
    (line : JSString) (h : line ∈ st.console) :
    line ∈ (columnBody P draws password mode columnName i item st).console := by
  unfold columnBody
  cases hr : (cryptoSimple P (draws i) item password mode).result
  · simp only [hr]
    exact List.mem_append_left _ h
  · simp only [hr]
    exact h

/-! ### Blank answers -/

theorem dropWhile_all_iff (p : CodeUnit → Bool) (s : JSString) :
    (∀ u ∈ s.dropWhile p, p u = true) ↔ ∀ u ∈ s, p u = true := by
  induction s with
  | nil => simp
  | cons a t ih =>
    by_cases ha : p a = true
    · simp only [List.dropWhile_cons, ha, if_true, ih, List.mem_cons, forall_eq_or_imp, true_and]
    · simp only [List.dropWhile_cons, ha, Bool.false_eq_true, if_false]

theorem jsTrim_length_eq_zero_iff (s : JSString) :
    (jsTrim s).length = 0 ↔ ∀ u ∈ s, isWhiteSpace u = true := by
  unfold jsTrim
  rw [List.length_eq_zero, List.reverse_eq_nil_iff, List.dropWhile_eq_nil_iff]
  simp only [List.mem_reverse]
  exact dropWhile_all_iff isWhiteSpace s

theorem isBlank_iff (s : JSString) : isBlank s = true ↔ ∀ u ∈ s, isWhiteSpace u = true := by
  unfold isBlank
  simp only [Bool.or_eq_true, decide_eq_true_eq, jsTrim_length_eq_zero_iff]
  constructor
  · rintro (h | h)
    · rw [List.length_eq_zero] at h
      subst h
      simp
    · exact h
  · intro h
    exact Or.inr h

/-! ### Inverting one bit -/

theorem flipByte_ne : ∀ (b : Byte) (k : Fin 8), flipByte b k.val ≠ b := by
  decide

theorem flipBit_length : ∀ (bs : Bytes) (j : Nat), (flipBit bs j).length = bs.length
  | [], _ => rfl
  | b :: rest, j => by
      unfold flipBit
      split_ifs
      · rfl
      · simp only [List.length_cons, flipBit_length rest (j - 8)]

theorem flipBit_append_left : ∀ (a b : Bytes) (j : Nat), j < 8 * a.length →
    flipBit (a ++ b) j = flipBit a j ++ b
  | [], _, j, h => by simp at h
  | x :: a, b, j, h => by
      simp only [List.cons_append, flipBit, List.append_eq]
      split_ifs with hj
      · rfl
      · simp only [List.length_cons] at h
        rw [flipBit_append_left a b (j - 8) (by omega)]
        rfl

theorem flipBit_append_right : ∀ (a b : Bytes) (j : Nat), 8 * a.length ≤ j →
    flipBit (a ++ b) j = a ++ flipBit b (j - 8 * a.length)
  | [], _, j, _ => by simp
  | x :: a, b, j, h => by
      simp only [List.length_cons] at h
      have e : j - 8 * (a.length + 1) = j - 8 - 8 * a.length := by omega
      simp only [List.cons_append, flipBit, List.append_eq, List.length_cons, e]
      rw [if_neg (by omega), flipBit_append_right a b (j - 8) (by omega)]

theorem flipBit_ne : ∀ (bs : Bytes) (j : Nat), j < 8 * bs.length → flipBit bs j ≠ bs
  | [], j, h => by simp at h
  | b :: rest, j, h => by
      unfold flipBit
      split_ifs with hj
      · intro e
        exact flipByte_ne b ⟨j, hj⟩ (List.cons.inj e).1
      · intro e
        simp only [List.length_cons] at h
        exact flipBit_ne rest (j - 8) (by omega) (List.cons.inj e).2

/-- Inverting the bit `j` of `salt ++ iv ++ tag ++ enc`, for a nonce of 12 bytes after a salt of 32
bytes, inverts a bit of the nonce when `256 ≤ j < 352`. -/
theorem flipBit_envelope_iv (salt iv tag enc : Bytes) (j : Nat) (hs : salt.length = 32)
    (hi : iv.length = 12) (h1 : 256 ≤ j) (h2 : j < 352) :
    flipBit (salt ++ iv ++ tag ++ enc) j = salt ++ flipBit iv (j - 256) ++ tag ++ enc := by
  simp only [List.append_assoc]
  rw [flipBit_append_right _ _ _ (by omega), flipBit_append_left _ _ _ (by omega), hs]

/-- Inverting the bit `j` of `salt ++ iv ++ tag ++ enc`, for a tag of 16 bytes after a salt of 32
and a nonce of 12 bytes, inverts a bit of the tag when `352 ≤ j < 480`. -/
theorem flipBit_envelope_tag (salt iv tag enc : Bytes) (j : Nat) (hs : salt.length = 32)
    (hi : iv.length = 12) (ht : tag.length = 16) (h1 : 352 ≤ j) (h2 : j < 480) :
    flipBit (salt ++ iv ++ tag ++ enc) j = salt ++ iv ++ flipBit tag (j - 352) ++ enc := by
  have e : j - 8 * salt.length - 8 * iv.length = j - 352 := by omega
  simp only [List.append_assoc]
  rw [flipBit_append_right _ _ _ (by omega), flipBit_append_right _ _ _ (by omega),
    flipBit_append_left _ _ _ (by omega), e]

/-! ### The small instance has the properties assumed of the primitives -/

theorem toyPrims_sound : GcmSound toyPrims := by
  intro key iv plaintext
  simp only [toyPrims, if_true]
  congr 1
  rw [List.map_map]
  have e : ((fun b : Byte => b - (checksum key + checksum iv))
      ∘ fun b : Byte => b + (checksum key + checksum iv)) = id := by
    funext b
    simp only [Function.comp, id]
    exact add_sub_cancel_right b _
  rw [e, List.map_id]

theorem toyPrims_lengths : GcmLengths toyPrims := by
  intro key iv plaintext
  have h15 : ((iv ++ List.replicate 15 (0 : Byte)).take 15).length = 15 := by
    rw [List.length_take, List.length_append, List.length_replicate]
    omega
  simp only [toyPrims, toyTag, authTagLength, List.length_map, List.length_cons, h15, true_and]

theorem toyPrims_open_some (key iv tag enc p : Bytes)
    (h : toyPrims.gcmOpen key iv tag enc = some p) : tag = toyTag key iv enc := by
  by_contra hne
  simp [toyPrims, hne] at h

theorem toyPrims_tagUnique : GcmTagUnique toyPrims := by
  intro key iv tag1 tag2 enc p1 p2 h1 h2
  rw [toyPrims_open_some _ _ _ _ _ h1, toyPrims_open_some _ _ _ _ _ h2]

theorem toyPrims_nonceUnique : GcmNonceUnique toyPrims := by
  intro key iv1 iv2 tag enc p1 p2 hl1 hl2 h1 h2
  have e := (toyPrims_open_some _ _ _ _ _ h1).symm.trans (toyPrims_open_some _ _ _ _ _ h2)
  have e2 := congrArg (List.take 12) (List.cons.inj e).2
  rw [List.take_take, List.take_take] at e2
  simpa [List.take_left' hl1, List.take_left' hl2] using e2

/-! ## The claims -/

/-- C3. Minimum-length rejection. In `decrypt` mode, a text whose base64 decoding has fewer than
61 bytes fails with the format error, whose message names the minimum 61 and the number of bytes
decoded, and no `crypto` primitive is called (no key derivation, no decipher); a text decoding to
61 bytes or more never fails with a format error, whatever numbers it would carry. -/
theorem decrypt_format_error_iff_short (P : Prims) (d : Draws) (data password : JSString) :
    ((base64Decode data).length < 61 →
        (cryptoSimple P d data password (js "decrypt")).result
            = .error (js "Неверный формат данных (минимум " ++ js "61" ++ js " байт, получено "
                ++ numText (base64Decode data).length ++ js ")")
          ∧ (cryptoSimple P d data password (js "decrypt")).calls = [])
      ∧ (61 ≤ (base64Decode data).length →
          ∀ min actual, (cryptoSimple P d data password (js "decrypt")).result
            ≠ .error (formatMessage min actual)) := by
  constructor
  · intro h
    rw [cryptoSimple_decrypt_short P d data password h]
    exact ⟨rfl, rfl⟩
  · intro h min actual
    rw [cryptoSimple_decrypt_long P d data password h]
    split
    · intro e
      cases e
    · intro e
      exact authMessage_ne_formatMessage min actual (Except.error.inj e)

/-- Witness of C3: the text `AAAA` decodes to 3 bytes and is rejected with the counts 61 and 3;
the text sealed from `hello` decodes to 65 bytes and is not rejected for its format. -/
theorem decrypt_format_error_iff_short_witness :
    ((cryptoSimple toyPrims toyDraws (js "AAAA") (js "pw") (js "decrypt")).result
        = .error (js "Неверный формат данных (минимум 61 байт, получено 3)")
      ∧ (cryptoSimple toyPrims toyDraws (js "AAAA") (js "pw") (js "decrypt")).calls = [])
    ∧ ∀ min actual,
        (cryptoSimple toyPrims toyDraws (sealedText toyPrims toyDraws (js "hello") (js "pw"))
          (js "pw") (js "decrypt")).result ≠ .error (formatMessage min actual) :=
  ⟨(decrypt_format_error_iff_short toyPrims toyDraws (js "AAAA") (js "pw")).1 (by decide),
    (decrypt_format_error_iff_short toyPrims toyDraws
      (sealedText toyPrims toyDraws (js "hello") (js "pw")) (js "pw")).2 (by decide)⟩

/-- C4. Single authentication error. In `decrypt` mode, for a text decoding to at least 61 bytes,
with the key derived from the given password and the first 32 decoded bytes, the nonce the next
12 bytes, the tag the next 16 and the encrypted bytes the rest: either the decipher accepts and
the call returns the bytes it verified, read as UTF-8 text, or the decipher fails and the call
throws the one message `Ошибка аутентификации: неверный пароль или поврежденные данные`, which
depends on nothing; in that case no text is returned. -/
theorem decrypt_verified_or_auth_error (P : Prims) (d : Draws) (data password : JSString)
    (h : 61 ≤ (base64Decode data).length) :
    (∃ decrypted,
        P.gcmOpen (P.pbkdf2 (utf8Encode password) ((base64Decode data).take 32) 600000 32)
            (((base64Decode data).drop 32).take 12) (((base64Decode data).drop 44).take 16)
            ((base64Decode data).drop 60) = some decrypted
          ∧ (cryptoSimple P d data password (js "decrypt")).result = .ok (utf8Decode decrypted))
      ∨ (P.gcmOpen (P.pbkdf2 (utf8Encode password) ((base64Decode data).take 32) 600000 32)
            (((base64Decode data).drop 32).take 12) (((base64Decode data).drop 44).take 16)
            ((base64Decode data).drop 60) = none
          ∧ (cryptoSimple P d data password (js "decrypt")).result
            = .error (js "Ошибка аутентификации: неверный пароль или поврежденные данные")
          ∧ ∀ text, (cryptoSimple P d data password (js "decrypt")).result ≠ .ok text) := by
  rw [cryptoSimple_decrypt_long P d data password h]
  change (∃ decrypted, P.gcmOpen (P.pbkdf2 (utf8Encode password) ((base64Decode data).take 32)
      iterations keyLength) _ _ _ = some decrypted ∧ _) ∨ (P.gcmOpen (P.pbkdf2
      (utf8Encode password) ((base64Decode data).take 32) iterations keyLength) _ _ _ = none ∧ _)
  cases hopen : P.gcmOpen (P.pbkdf2 (utf8Encode password) ((base64Decode data).take 32)
      iterations keyLength) (((base64Decode data).drop 32).take 12)
      (((base64Decode data).drop 44).take 16) ((base64Decode data).drop 60) with
  | some decrypted => exact Or.inl ⟨decrypted, rfl, rfl⟩
  | none =>
    refine Or.inr ⟨rfl, rfl, ?_⟩
    intro text e
    cases e

/-- Witness of C4: the text sealed from `hello` decodes to 65 bytes. -/
theorem decrypt_verified_or_auth_error_witness :
    61 ≤ (base64Decode (sealedText toyPrims toyDraws (js "hello") (js "pw"))).length
      ∧ ((∃ decrypted,
          toyPrims.gcmOpen
              (toyPrims.pbkdf2 (utf8Encode (js "pw"))
                ((base64Decode (sealedText toyPrims toyDraws (js "hello") (js "pw"))).take 32)
                600000 32)
              (((base64Decode (sealedText toyPrims toyDraws (js "hello") (js "pw"))).drop 32).take
                12)
              (((base64Decode (sealedText toyPrims toyDraws (js "hello") (js "pw"))).drop 44).take
                16)
              ((base64Decode (sealedText toyPrims toyDraws (js "hello") (js "pw"))).drop 60)
              = some decrypted
            ∧ (cryptoSimple toyPrims toyDraws
                (sealedText toyPrims toyDraws (js "hello") (js "pw")) (js "pw")
                (js "decrypt")).result = .ok (utf8Decode decrypted))
        ∨ (toyPrims.gcmOpen
              (toyPrims.pbkdf2 (utf8Encode (js "pw"))
                ((base64Decode (sealedText toyPrims toyDraws (js "hello") (js "pw"))).take 32)
                600000 32)
              (((base64Decode (sealedText toyPrims toyDraws (js "hello") (js "pw"))).drop 32).take
                12)
              (((base64Decode (sealedText toyPrims toyDraws (js "hello") (js "pw"))).drop 44).take
                16)
              ((base64Decode (sealedText toyPrims toyDraws (js "hello") (js "pw"))).drop 60)
              = none
            ∧ (cryptoSimple toyPrims toyDraws
                (sealedText toyPrims toyDraws (js "hello") (js "pw")) (js "pw")
                (js "decrypt")).result
              = .error (js "Ошибка аутентификации: неверный пароль или поврежденные данные")
            ∧ ∀ text, (cryptoSimple toyPrims toyDraws
                (sealedText toyPrims toyDraws (js "hello") (js "pw")) (js "pw")
                (js "decrypt")).result ≠ .ok text)) :=
  ⟨by decide,
    decrypt_verified_or_auth_error toyPrims toyDraws
      (sealedText toyPrims toyDraws (js "hello") (js "pw")) (js "pw") (by decide)⟩

/-- C2. Wire layout. In `encrypt` mode, for a non-empty plaintext, with the salt and nonce drawn
(32 and 12 bytes) and the tag and encrypted bytes returned by the cipher (a tag of 16 bytes, as
many encrypted bytes as the plaintext has UTF-8 bytes), the call returns a text whose base64
decoding is exactly `salt ++ nonce ++ tag ++ encrypted`, of `60 + N` bytes for `N ≥ 1` the UTF-8
length of the plaintext. The `decrypt` branch run on that text, with any password, splits it into
exactly those regions: the four `subarray` expressions give the salt, the nonce, the tag and the
encrypted bytes, the key is derived from that salt, and the decipher is called with that nonce,
that tag and those encrypted bytes. -/
theorem encrypt_wire_layout (P : Prims) (d d2 : Draws) (data password password2 : JSString)
    (hL : GcmLengths P) (hT : data ≠ []) :
    ∃ text tag enc,
      P.gcmSeal (P.pbkdf2 (utf8Encode password) d.salt 600000 32) d.iv (utf8Encode data)
          = (enc, tag)
        ∧ (cryptoSimple P d data password (js "encrypt")).result = .ok text
        ∧ base64Decode text = d.salt ++ d.iv ++ tag ++ enc
        ∧ d.salt.length = 32 ∧ d.iv.length = 12 ∧ tag.length = 16
        ∧ enc.length = (utf8Encode data).length
        ∧ (base64Decode text).length = 60 + (utf8Encode data).length
        ∧ 1 ≤ (utf8Encode data).length
        ∧ subarray (base64Decode text) 0 saltLength = d.salt
        ∧ subarray (base64Decode text) saltLength (saltLength + ivLength) = d.iv
        ∧ subarray (base64Decode text) (saltLength + ivLength)
            (saltLength + ivLength + authTagLength) = tag
        ∧ subarrayFrom (base64Decode text) (saltLength + ivLength + authTagLength) = enc
        ∧ (cryptoSimple P d2 text password2 (js "decrypt")).calls
          = [Call.pbkdf2 (utf8Encode password2) d.salt 600000 32,
              Call.decipher (P.pbkdf2 (utf8Encode password2) d.salt 600000 32) d.iv tag enc] := by
  obtain ⟨hE, hTg⟩ := hL (P.pbkdf2 (utf8Encode password) d.salt 600000 32) d.iv (utf8Encode data)
  have hT2 : (P.gcmSeal (P.pbkdf2 (utf8Encode password) d.salt 600000 32) d.iv
      (utf8Encode data)).2.length = 16 := hTg
  obtain ⟨s1, s2, s3, s4⟩ := envelope_split d.salt d.iv _
    (P.gcmSeal (P.pbkdf2 (utf8Encode password) d.salt 600000 32) d.iv (utf8Encode data)).1
    d.salt_length d.iv_length hT2
  have hlen := envelope_length d.salt d.iv _
    (P.gcmSeal (P.pbkdf2 (utf8Encode password) d.salt 600000 32) d.iv (utf8Encode data)).1
    d.salt_length d.iv_length hT2
  have hpos : 1 ≤ (utf8Encode data).length := List.length_pos.2 (utf8Encode_ne_nil data hT)
  refine ⟨_, _, _, rfl, ?_, base64Decode_base64Encode _, d.salt_length, d.iv_length, hT2, hE,
    ?_, hpos, ?_, ?_, ?_, ?_, ?_⟩
  · rw [cryptoSimple_encrypt]
    rfl
  · rw [base64Decode_base64Encode, hlen, hE]
  · rw [base64Decode_base64Encode]
    simpa [subarray, saltLength] using s1
  · rw [base64Decode_base64Encode]
    simpa [subarray, saltLength, ivLength, List.drop_take] using s2
  · rw [base64Decode_base64Encode]
    simpa [subarray, saltLength, ivLength, authTagLength, List.drop_take] using s3
  · rw [base64Decode_base64Encode]
    simpa [subarrayFrom, saltLength, ivLength, authTagLength] using s4
  · rw [cryptoSimple_decrypt_long _ _ _ _ (by rw [base64Decode_base64Encode, hlen, hE]; omega)]
    simp only [base64Decode_base64Encode, s1, s2, s3, s4]
    split <;> rfl

/-- Witness of C2: the layout of the text sealed from `hello` with the small instance, and the
calls of the `decrypt` branch on it with another password. -/
theorem encrypt_wire_layout_witness :
    GcmLengths toyPrims ∧ js "hello" ≠ []
      ∧ ∃ text tag enc,
        toyPrims.gcmSeal (toyPrims.pbkdf2 (utf8Encode (js "pw")) toyDraws.salt 600000 32)
            toyDraws.iv (utf8Encode (js "hello")) = (enc, tag)
          ∧ (cryptoSimple toyPrims toyDraws (js "hello") (js "pw") (js "encrypt")).result
            = .ok text
          ∧ base64Decode text = toyDraws.salt ++ toyDraws.iv ++ tag ++ enc
          ∧ toyDraws.salt.length = 32 ∧ toyDraws.iv.length = 12 ∧ tag.length = 16
          ∧ enc.length = (utf8Encode (js "hello")).length
          ∧ (base64Decode text).length = 60 + (utf8Encode (js "hello")).length
          ∧ 1 ≤ (utf8Encode (js "hello")).length
          ∧ subarray (base64Decode text) 0 saltLength = toyDraws.salt
          ∧ subarray (base64Decode text) saltLength (saltLength + ivLength) = toyDraws.iv
          ∧ subarray (base64Decode text) (saltLength + ivLength)
              (saltLength + ivLength + authTagLength) = tag
          ∧ subarrayFrom (base64Decode text) (saltLength + ivLength + authTagLength) = enc
          ∧ (cryptoSimple toyPrims toyDraws text (js "other") (js "decrypt")).calls
            = [Call.pbkdf2 (utf8Encode (js "other")) toyDraws.salt 600000 32,
                Call.decipher (toyPrims.pbkdf2 (utf8Encode (js "other")) toyDraws.salt 600000 32)
                  toyDraws.iv tag enc] :=
  ⟨toyPrims_lengths, by decide,
    encrypt_wire_layout toyPrims toyDraws toyDraws (js "hello") (js "pw") (js "other")
      toyPrims_lengths (by decide)⟩

/-- C1, as the code has it. Round trip for well-formed text: when the decipher returns what the
cipher was given, the cipher keeps the length and gives a 16-byte tag, then for every password,
every non-empty text without unpaired surrogate code units and every salt and nonce drawn, the
`encrypt` call returns a text on which the `decrypt` call with the same password returns exactly
the original text. -/
theorem roundtrip_wellFormed (P : Prims) (d d2 : Draws) (data password : JSString)
    (hS : GcmSound P) (hL : GcmLengths P) (hT : data ≠ []) (hW : wellFormed data = true) :
    ∃ text, (cryptoSimple P d data password (js "encrypt")).result = .ok text
      ∧ (cryptoSimple P d2 text password (js "decrypt")).result = .ok data := by
  obtain ⟨hE, hTag⟩ := hL (P.pbkdf2 (utf8Encode password) d.salt iterations keyLength) d.iv
    (utf8Encode data)
  have hTag2 : (P.gcmSeal (P.pbkdf2 (utf8Encode password) d.salt iterations keyLength) d.iv
      (utf8Encode data)).2.length = 16 := hTag
  obtain ⟨s1, s2, s3, s4⟩ := envelope_split d.salt d.iv _
    (P.gcmSeal (P.pbkdf2 (utf8Encode password) d.salt iterations keyLength) d.iv
      (utf8Encode data)).1 d.salt_length d.iv_length hTag2
  have hlen := envelope_length d.salt d.iv _
    (P.gcmSeal (P.pbkdf2 (utf8Encode password) d.salt iterations keyLength) d.iv
      (utf8Encode data)).1 d.salt_length d.iv_length hTag2
  have hpos : 1 ≤ (utf8Encode data).length := List.length_pos.2 (utf8Encode_ne_nil data hT)
  refine ⟨_, by rw [cryptoSimple_encrypt], ?_⟩
  rw [cryptoSimple_decrypt_long _ _ _ _ (by rw [base64Decode_base64Encode, hlen, hE]; omega)]
  simp only [base64Decode_base64Encode, s1, s2, s3, s4, hS _ _ _]
  rw [utf8Decode_utf8Encode data hW]

/-- Witness of C1 as amended: the text `hé€😀` (one, two, three and four UTF-8 bytes). -/
theorem roundtrip_wellFormed_witness :
    GcmSound toyPrims ∧ GcmLengths toyPrims ∧ js "hé€😀" ≠ [] ∧ wellFormed (js "hé€😀") = true
      ∧ ∃ text, (cryptoSimple toyPrims toyDraws (js "hé€😀") (js "pw") (js "encrypt")).result
          = .ok text
        ∧ (cryptoSimple toyPrims toyDraws text (js "pw") (js "decrypt")).result
          = .ok (js "hé€😀") :=
  ⟨toyPrims_sound, toyPrims_lengths, by decide, by decide,
    roundtrip_wellFormed toyPrims toyDraws toyDraws (js "hé€😀") (js "pw") toyPrims_sound
      toyPrims_lengths (by decide) (by decide)⟩

/-- Counterexample to C1 as stated: with primitives that have the assumed properties, the
non-empty text made of the single code unit `D800` (a high surrogate without its partner) is
sealed as the bytes `EF BF BD`, and the `decrypt` call returns the text `FFFD`, not the
original. -/
theorem roundtrip_lone_surrogate :
    GcmSound toyPrims ∧ GcmLengths toyPrims
      ∧ utf8Encode [0xD800] = [0xEF, 0xBF, 0xBD]
      ∧ (cryptoSimple toyPrims toyDraws [0xD800] (js "pw") (js "encrypt")).result
        = .ok (sealedText toyPrims toyDraws [0xD800] (js "pw"))
      ∧ (cryptoSimple toyPrims toyDraws (sealedText toyPrims toyDraws [0xD800] (js "pw"))
          (js "pw") (js "decrypt")).result = .ok [0xFFFD]
      ∧ (cryptoSimple toyPrims toyDraws (sealedText toyPrims toyDraws [0xD800] (js "pw"))
          (js "pw") (js "decrypt")).result ≠ .ok [0xD800] :=
  ⟨toyPrims_sound, toyPrims_lengths, by decide, by decide, by decide, by decide⟩

/-- C10. Non-determinism of sealing. With the salt and nonce drawn by each call taken as inputs,
two `encrypt` calls on the same text and password both return a text, and the two texts are equal
exactly when the two calls drew the same salt and the same nonce: different draws give different
texts, equal draws the same text. -/
theorem seal_texts_equal_iff_same_draws (P : Prims) (d1 d2 : Draws) (data password : JSString) :
    ∃ text1 text2,
      (cryptoSimple P d1 data password (js "encrypt")).result = .ok text1
        ∧ (cryptoSimple P d2 data password (js "encrypt")).result = .ok text2
        ∧ (text1 = text2 ↔ (d1.salt = d2.salt ∧ d1.iv = d2.iv)) := by
  refine ⟨_, _, by rw [cryptoSimple_encrypt], by rw [cryptoSimple_encrypt], ?_⟩
  constructor
  · intro h
    have h1 := base64Encode_injective _ _ h
    simp only [List.append_assoc] at h1
    obtain ⟨hs, h2⟩ := List.append_inj h1 (by rw [d1.salt_length, d2.salt_length])
    obtain ⟨hi, _⟩ := List.append_inj h2 (by rw [d1.iv_length, d2.iv_length])
    exact ⟨hs, hi⟩
  · rintro ⟨hs, hi⟩
    rw [hs, hi]

/-- C6, as the code has it. The decoder is lenient: the `decrypt` call on a text is the call on
the text without the characters the decoder skips (those it reads neither as a character of the
alphabet nor as `=`), and for every text, well encoded or not, it fails with the format error
exactly when fewer than 61 bytes are extracted from it. -/
theorem decrypt_lenient_base64 (P : Prims) (d : Draws) (data password : JSString) :
    cryptoSimple P d data password (js "decrypt")
        = cryptoSimple P d (data.filter (fun c => !isForeign c)) password (js "decrypt")
      ∧ ((∃ min actual, (cryptoSimple P d data password (js "decrypt")).result
            = .error (formatMessage min actual))
          ↔ (base64Decode data).length < 61) := by
  refine ⟨cryptoSimple_decrypt_congr P d _ _ password (base64Decode_filter_foreign data).symm,
    ?_, ?_⟩
  · rintro ⟨min, actual, h⟩
    by_contra hlen
    exact (decrypt_len_not_format P d data password (by omega) min actual) h
  · intro h
    exact ⟨61, (base64Decode data).length, by rw [cryptoSimple_decrypt_short P d data password h]⟩

/-- Counterexample to C6 as stated: the text sealed from `hello` with the character `!` put in
front is not a base64 encoding (`!` is outside the alphabet), yet the `decrypt` call does not
fail: the decoder skips the `!`, extracts 65 bytes, and the call returns `hello`. -/
theorem decrypt_accepts_foreign_char :
    isForeign 33 = true
      ∧ (∀ bs, base64Encode bs
          ≠ (33 : CodeUnit) :: sealedText toyPrims toyDraws (js "hello") (js "pw"))
      ∧ (base64Decode ((33 : CodeUnit) :: sealedText toyPrims toyDraws (js "hello")
          (js "pw"))).length = 65
      ∧ (cryptoSimple toyPrims toyDraws
          ((33 : CodeUnit) :: sealedText toyPrims toyDraws (js "hello") (js "pw")) (js "pw")
          (js "decrypt")).result = .ok (js "hello") := by
  refine ⟨by decide, ?_, by decide, by decide⟩
  intro bs h
  exact base64Encode_head_ne_foreign bs 33 (by decide) (by rw [h]; rfl)

/-- C7. Batch order, cardinality and isolation. The loop of the sources 2 and 3 leaves as many
results as there are items, the result at each index being the entry of `cryptoSimple` on the item
at that index: the returned text, or the error marker when the call throws; replacing one item
changes the result at its index only. The loop of source 4 leaves under each column name such a
result sequence for the items of that column. -/
theorem batch_results_per_item (P : Prims) (draws : Nat → Draws) (columnDraws : Nat → Nat → Draws)
    (password mode : JSString) (dataArray : List JSString)
    (dataObject : JSString → List JSString) (columnNames : List JSString) :
    (batchLoop P draws password mode dataArray).results.length = dataArray.length
      ∧ (∀ (i : Nat), (batchLoop P draws password mode dataArray).results[i]?
          = (dataArray[i]?).map
              (fun item => resultEntry (cryptoSimple P (draws i) item password mode)))
      ∧ (∀ (j : Nat) (other : JSString) (i : Nat), (batchLoop P draws password mode (dataArray.set j other)).results[i]?
          = if i = j then
              (dataArray[j]?).map
                (fun _ => resultEntry (cryptoSimple P (draws j) other password mode))
            else (batchLoop P draws password mode dataArray).results[i]?)
      ∧ (∀ name, name ∈ columnNames →
          ∃ (c : Nat) (results : List JSString), columnNames[c]? = some name
            ∧ (multiColumnLoop P columnDraws password mode dataObject columnNames).1.get name
              = some results
            ∧ results.length = (dataObject name).length
            ∧ ∀ (i : Nat), results[i]? = ((dataObject name)[i]?).map
                (fun item => resultEntry (cryptoSimple P (columnDraws c i) item password mode)))
    := by
  refine ⟨?_, ?_, ?_, ?_⟩
  · rw [batchLoop_results, mapIdxFrom_length]
  · intro i
    rw [batchLoop_results, mapIdxFrom_getElem?, Nat.zero_add]
  · intro j other i
    rw [batchLoop_results, batchLoop_results, mapIdxFrom_getElem?, mapIdxFrom_getElem?,
      Nat.zero_add, List.getElem?_set]
    by_cases hij : i = j
    · subst hij
      rw [if_pos rfl, if_pos rfl]
      by_cases hlt : i < dataArray.length
      · rw [if_pos hlt, List.getElem?_eq_getElem hlt]
        rfl
      · rw [if_neg hlt, List.getElem?_eq_none (by omega)]
        rfl
    · rw [if_neg (fun e => hij e.symm), if_neg hij]
  · intro name hname
    obtain ⟨k, hk, hg⟩ := columnsFrom_get_of_mem P columnDraws password mode dataObject name
      columnNames 0 (JSObject.empty, LoopState.empty) hname
    rw [Nat.zero_add] at hg
    refine ⟨k, mapIdxFrom
      (fun i item => resultEntry (cryptoSimple P (columnDraws k i) item password mode)) 0
      (dataObject name), hk, hg, mapIdxFrom_length _ _ _, ?_⟩
    intro i
    rw [mapIdxFrom_getElem?, Nat.zero_add]

/-- Witness of C7: the column `a` of a one-column table, and the scenario of three items of which
the second is malformed, in `decrypt` mode. -/
theorem batch_results_per_item_witness :
    (js "a" ∈ [js "a"]
      ∧ ∃ (c : Nat) (results : List JSString), [js "a"][c]? = some (js "a")
        ∧ (multiColumnLoop toyPrims (fun _ _ => toyDraws) (js "pw") (js "decrypt")
            (fun _ => [js "AAAA"]) [js "a"]).1.get (js "a") = some results
        ∧ results.length = [js "AAAA"].length
        ∧ ∀ (i : Nat), results[i]? = ([js "AAAA"][i]?).map
            (fun item => resultEntry
              (cryptoSimple toyPrims toyDraws item (js "pw") (js "decrypt"))))
      ∧ (batchLoop toyPrims (fun _ => toyDraws) (js "pw") (js "decrypt")
          [sealedText toyPrims toyDraws (js "A") (js "pw"), js "AAAA",
            sealedText toyPrims toyDraws (js "C") (js "pw")]).results
        = [js "A", js "ERROR: Неверный формат данных (минимум 61 байт, получено 3)", js "C"] :=
  ⟨⟨by decide,
    (batch_results_per_item toyPrims (fun _ => toyDraws) (fun _ _ => toyDraws) (js "pw")
      (js "decrypt") [] (fun _ => [js "AAAA"]) [js "a"]).2.2.2 (js "a") (by decide)⟩,
    by decide⟩

/-- C8, as the code has it. Batch error marker. For an item at index `i` on which `cryptoSimple`
throws, the entry recorded in the results is `ERROR: ` followed by the message, whatever the
index; the 1-based position `i + 1` is written, with the message, in a line of the console only:
`⚠️  Ошибка на строке …` in the loop of the sources 2 and 3, `⚠️  Ошибка в столбце "…", строка …`
in the loop over a column of source 4. -/
theorem batch_error_marker (P : Prims) (draws : Nat → Draws) (password mode : JSString)
    (dataArray : List JSString) (columnName : JSString) (st : LoopState) (i : Nat)
    (item message : JSString) (hitem : dataArray[i]? = some item)
    (hfail : (cryptoSimple P (draws i) item password mode).result = .error message) :
    (batchLoop P draws password mode dataArray).results[i]? = some (js "ERROR: " ++ message)
      ∧ (js "⚠️  Ошибка на строке " ++ numText (i + 1) ++ js ": " ++ message)
          ∈ (batchLoop P draws password mode dataArray).console
      ∧ (columnLoop P draws password mode columnName dataArray st).results[i]?
          = some (js "ERROR: " ++ message)
      ∧ (js "⚠️  Ошибка в столбце \"" ++ columnName ++ js "\", строка " ++ numText (i + 1)
            ++ js ": " ++ message)
          ∈ (columnLoop P draws password mode columnName dataArray st).console := by
  refine ⟨?_, ?_, ?_, ?_⟩
  · rw [batchLoop_results, mapIdxFrom_getElem?, Nat.zero_add, hitem]
    simp only [Option.map_some', resultEntry, hfail]
    rfl
  · unfold batchLoop
    refine loopFrom_console_mem _ (batchBody_console_mono P draws password mode _) _ item
      dataArray 0 i _ hitem ?_
    intro st2
    rw [Nat.zero_add]
    unfold batchBody
    simp only [hfail]
    exact List.mem_append_right _ (List.mem_singleton_self _)
  · rw [columnLoop_results, mapIdxFrom_getElem?, Nat.zero_add, hitem]
    simp only [Option.map_some', resultEntry, hfail]
    rfl
  · unfold columnLoop
    simp only []
    refine List.mem_append_left _ ?_
    refine loopFrom_console_mem _ (columnBody_console_mono P draws password mode columnName) _
      item dataArray 0 i _ hitem ?_
    intro st2
    rw [Nat.zero_add]
    unfold columnBody
    simp only [hfail]
    exact List.mem_append_right _ (List.mem_singleton_self _)

/-- Witness of C8 as amended: the second of two malformed items, in `decrypt` mode. -/
theorem batch_error_marker_witness :
    [js "AAAA", js "AAAA"][1]? = some (js "AAAA")
      ∧ (cryptoSimple toyPrims toyDraws (js "AAAA") (js "pw") (js "decrypt")).result
        = .error (js "Неверный формат данных (минимум 61 байт, получено 3)")
      ∧ ((batchLoop toyPrims (fun _ => toyDraws) (js "pw") (js "decrypt")
            [js "AAAA", js "AAAA"]).results[1]?
          = some (js "ERROR: " ++ js "Неверный формат данных (минимум 61 байт, получено 3)")
        ∧ (js "⚠️  Ошибка на строке " ++ numText (1 + 1) ++ js ": "
              ++ js "Неверный формат данных (минимум 61 байт, получено 3)")
            ∈ (batchLoop toyPrims (fun _ => toyDraws) (js "pw") (js "decrypt")
                [js "AAAA", js "AAAA"]).console
        ∧ (columnLoop toyPrims (fun _ => toyDraws) (js "pw") (js "decrypt") (js "token")
              [js "AAAA", js "AAAA"] LoopState.empty).results[1]?
            = some (js "ERROR: " ++ js "Неверный формат данных (минимум 61 байт, получено 3)")
        ∧ (js "⚠️  Ошибка в столбце \"" ++ js "token" ++ js "\", строка " ++ numText (1 + 1)
              ++ js ": " ++ js "Неверный формат данных (минимум 61 байт, получено 3)")
            ∈ (columnLoop toyPrims (fun _ => toyDraws) (js "pw") (js "decrypt") (js "token")
                [js "AAAA", js "AAAA"] LoopState.empty).console) :=
  ⟨by decide, by decide,
    batch_error_marker toyPrims (fun _ => toyDraws) (js "pw") (js "decrypt")
      [js "AAAA", js "AAAA"] (js "token") LoopState.empty 1 (js "AAAA")
      (js "Неверный формат данных (минимум 61 байт, получено 3)") (by decide) (by decide)⟩

/-- Counterexample to C8 as stated: two malformed items in `decrypt` mode. The entry recorded for
the second item (index 1, position 2) is the text
`ERROR: Неверный формат данных (минимум 61 байт, получено 3)`, in which the position `2` does not
occur, and it is the same entry as the one recorded for the first item. -/
theorem batch_error_marker_without_position :
    (cryptoSimple toyPrims toyDraws (js "AAAA") (js "pw") (js "decrypt")).result
        = .error (js "Неверный формат данных (минимум 61 байт, получено 3)")
      ∧ (batchLoop toyPrims (fun _ => toyDraws) (js "pw") (js "decrypt")
          [js "AAAA", js "AAAA"]).results
        = [js "ERROR: Неверный формат данных (минимум 61 байт, получено 3)",
            js "ERROR: Неверный формат данных (минимум 61 байт, получено 3)"]
      ∧ ¬ List.IsInfix (numText 2)
          (js "ERROR: Неверный формат данных (минимум 61 байт, получено 3)") := by
  refine ⟨by decide, by decide, by decide⟩

/-- C9, as the code has it. Empty input is rejected by `main`, before `cryptoSimple` is called:
when the password typed is empty or made of white space only, `main` ends with the line for an
empty password, whatever the mode and the data source chosen; when the password is not blank, the
source chosen is 1 (manual input) and the data typed is empty or white space only, `main` ends
with the line for empty data. In both cases no `crypto` primitive is called and no text is
produced. -/
theorem main_rejects_blank_input (P : Prims) (d : Draws)
    (fileSources : JSString → JSString → JSString → MainRun)
    (modeChoice password sourceChoice data : JSString) :
    (password.all isWhiteSpace = true →
        (main P d fileSources modeChoice password sourceChoice data).exit = .emptyPassword
          ∧ (main P d fileSources modeChoice password sourceChoice data).calls = [])
      ∧ (password.all isWhiteSpace = false → jsTrim sourceChoice = js "1" →
          data.all isWhiteSpace = true →
            (main P d fileSources modeChoice password sourceChoice data).exit = .emptyData
              ∧ (main P d fileSources modeChoice password sourceChoice data).calls = []) := by
  constructor
  · intro h
    have hb : isBlank password = true := (isBlank_iff password).2 (List.all_eq_true.1 h)
    simp only [main, hb, if_true, and_self]
  · intro hp hs hd
    have hb : isBlank password = false := by
      cases hbp : isBlank password
      · rfl
      · rw [List.all_eq_true.2 ((isBlank_iff password).1 hbp)] at hp
        cases hp
    have hbd : isBlank data = true := (isBlank_iff data).2 (List.all_eq_true.1 hd)
    simp only [main, hb, Bool.false_eq_true, if_false, hs, if_true, hbd, and_self]

/-- Witness of C9 as amended: a password of two spaces; then the password `pw`, the answer ` 1`
to the source question and data made of a tab and a space. -/
theorem main_rejects_blank_input_witness :
    ((js "  ").all isWhiteSpace = true
      ∧ (main toyPrims toyDraws (fun _ _ _ => ⟨.other, []⟩) (js "1") (js "  ") (js "2")
          (js "hello")).exit = .emptyPassword
      ∧ (main toyPrims toyDraws (fun _ _ _ => ⟨.other, []⟩) (js "1") (js "  ") (js "2")
          (js "hello")).calls = [])
    ∧ ((js "pw").all isWhiteSpace = false ∧ jsTrim (js " 1") = js "1"
      ∧ (js "\t ").all isWhiteSpace = true
      ∧ (main toyPrims toyDraws (fun _ _ _ => ⟨.other, []⟩) (js "1") (js "pw") (js " 1")
          (js "\t ")).exit = .emptyData
      ∧ (main toyPrims toyDraws (fun _ _ _ => ⟨.other, []⟩) (js "1") (js "pw") (js " 1")
          (js "\t ")).calls = []) :=
  ⟨⟨by decide,
      (main_rejects_blank_input toyPrims toyDraws (fun _ _ _ => ⟨.other, []⟩) (js "1") (js "  ")
        (js "2") (js "hello")).1 (by decide)⟩,
    ⟨by decide, by decide, by decide,
      (main_rejects_blank_input toyPrims toyDraws (fun _ _ _ => ⟨.other, []⟩) (js "1") (js "pw")
        (js " 1") (js "\t ")).2 (by decide) (by decide) (by decide)⟩⟩

/-- Counterexample to C9 as stated: `cryptoSimple` itself rejects nothing. Called in `encrypt`
mode with the empty text, or with a password that is a single space, it calls `randomBytes`,
`pbkdf2Sync` and the cipher and returns a text (of 80 characters, 60 bytes, for the empty
text). -/
theorem cryptoSimple_accepts_empty_input :
    (cryptoSimple toyPrims toyDraws [] (js "pw") (js "encrypt")).result
        = .ok (sealedText toyPrims toyDraws [] (js "pw"))
      ∧ (sealedText toyPrims toyDraws [] (js "pw")).length = 80
      ∧ (base64Decode (sealedText toyPrims toyDraws [] (js "pw"))).length = 60
      ∧ (cryptoSimple toyPrims toyDraws [] (js "pw") (js "encrypt")).calls.length = 4
      ∧ (js " ").all isWhiteSpace = true
      ∧ (cryptoSimple toyPrims toyDraws (js "hello") (js " ") (js "encrypt")).result
        = .ok (sealedText toyPrims toyDraws (js "hello") (js " "))
      ∧ (sealedText toyPrims toyDraws (js "hello") (js " ")).length = 88
      ∧ (cryptoSimple toyPrims toyDraws (js "hello") (js " ") (js "encrypt")).calls.length = 4 := by
  refine ⟨by decide, by decide, by decide, by decide, by decide, by decide, by decide, by decide⟩

/-- C5, as the code has it. Tamper sensitivity for a non-empty plaintext. Assume the decipher
returns what the cipher was given, the cipher keeps the length and gives a 16-byte tag, and for a
key and encrypted bytes the decipher accepts at most one tag and at most one 12-byte nonce. Then
for every non-empty text, with the bit `j` of the bytes of the text returned in `encrypt` mode
inverted and the bytes encoded again: when the bit lies in the nonce or in the tag (bits 256 to
479), the `decrypt` call throws the authentication error and returns no text; wherever the bit
lies, the call throws the authentication error, or the decipher accepted the altered regions
under the key derived from the (possibly altered) salt and the call returns the bytes it
verified. -/
theorem tamper_detected (P : Prims) (d d2 : Draws) (data password : JSString)
    (hS : GcmSound P) (hL : GcmLengths P) (hTag : GcmTagUnique P) (hNonce : GcmNonceUnique P)
    (hT : data ≠ []) (j : Nat) :
    ∃ text, (cryptoSimple P d data password (js "encrypt")).result = .ok text
      ∧ (base64Decode text).length = 60 + (utf8Encode data).length
      ∧ (8 * 32 ≤ j → j < 8 * 60 →
          (cryptoSimple P d2 (base64Encode (flipBit (base64Decode text) j)) password
              (js "decrypt")).result
            = .error (js "Ошибка аутентификации: неверный пароль или поврежденные данные")
          ∧ ∀ returned,
            (cryptoSimple P d2 (base64Encode (flipBit (base64Decode text) j)) password
              (js "decrypt")).result ≠ .ok returned)
      ∧ ((cryptoSimple P d2 (base64Encode (flipBit (base64Decode text) j)) password
              (js "decrypt")).result
            = .error (js "Ошибка аутентификации: неверный пароль или поврежденные данные")
          ∨ ∃ decrypted,
            P.gcmOpen
                (P.pbkdf2 (utf8Encode password) ((flipBit (base64Decode text) j).take 32)
                  600000 32)
                (((flipBit (base64Decode text) j).drop 32).take 12)
                (((flipBit (base64Decode text) j).drop 44).take 16)
                ((flipBit (base64Decode text) j).drop 60) = some decrypted
              ∧ (cryptoSimple P d2 (base64Encode (flipBit (base64Decode text) j)) password
                  (js "decrypt")).result = .ok (utf8Decode decrypted)) := by
  obtain ⟨hE, hTg⟩ := hL (P.pbkdf2 (utf8Encode password) d.salt iterations keyLength) d.iv
    (utf8Encode data)
  have hTg2 : (P.gcmSeal (P.pbkdf2 (utf8Encode password) d.salt iterations keyLength) d.iv
      (utf8Encode data)).2.length = 16 := hTg
  have hlen := envelope_length d.salt d.iv _
    (P.gcmSeal (P.pbkdf2 (utf8Encode password) d.salt iterations keyLength) d.iv
      (utf8Encode data)).1 d.salt_length d.iv_length hTg2
  rw [hE] at hlen
  have hpos : 1 ≤ (utf8Encode data).length := List.length_pos.2 (utf8Encode_ne_nil data hT)
  have hsound := hS (P.pbkdf2 (utf8Encode password) d.salt iterations keyLength) d.iv
    (utf8Encode data)
  refine ⟨_, by rw [cryptoSimple_encrypt], ?_, ?_, ?_⟩
  · rw [base64Decode_base64Encode, hlen]
  · intro h1 h2
    rw [base64Decode_base64Encode]
    have hres : (cryptoSimple P d2 (base64Encode (flipBit (d.salt ++ d.iv
        ++ (P.gcmSeal (P.pbkdf2 (utf8Encode password) d.salt iterations keyLength) d.iv
          (utf8Encode data)).2
        ++ (P.gcmSeal (P.pbkdf2 (utf8Encode password) d.salt iterations keyLength) d.iv
          (utf8Encode data)).1) j)) password (js "decrypt")).result = .error authMessage := by
      by_cases h3 : j < 352
      · rw [flipBit_envelope_iv _ _ _ _ j d.salt_length d.iv_length (by omega) h3,
          cryptoSimple_decrypt_envelope _ _ _ _ _ _ _ d.salt_length
            (by rw [flipBit_length, d.iv_length]) hTg2 (by rw [hE]; exact hpos)]
        cases hopen : P.gcmOpen (P.pbkdf2 (utf8Encode password) d.salt iterations keyLength)
            (flipBit d.iv (j - 256))
            (P.gcmSeal (P.pbkdf2 (utf8Encode password) d.salt iterations keyLength) d.iv
              (utf8Encode data)).2
            (P.gcmSeal (P.pbkdf2 (utf8Encode password) d.salt iterations keyLength) d.iv
              (utf8Encode data)).1 with
        | none => rfl
        | some p2 =>
          exfalso
          have e := hNonce _ _ _ _ _ _ _ d.iv_length (by rw [flipBit_length, d.iv_length])
            hsound hopen
          exact flipBit_ne d.iv (j - 256) (by rw [d.iv_length]; omega) e.symm
      · rw [flipBit_envelope_tag _ _ _ _ j d.salt_length d.iv_length hTg2 (by omega)
            (by omega),
          cryptoSimple_decrypt_envelope _ _ _ _ _ _ _ d.salt_length d.iv_length
            (by rw [flipBit_length, hTg2]) (by rw [hE]; exact hpos)]
        cases hopen : P.gcmOpen (P.pbkdf2 (utf8Encode password) d.salt iterations keyLength)
            d.iv
            (flipBit (P.gcmSeal (P.pbkdf2 (utf8Encode password) d.salt iterations keyLength) d.iv
              (utf8Encode data)).2 (j - 352))
            (P.gcmSeal (P.pbkdf2 (utf8Encode password) d.salt iterations keyLength) d.iv
              (utf8Encode data)).1 with
        | none => rfl
        | some p2 =>
          exfalso
          have e := hTag _ _ _ _ _ _ _ hsound hopen
          exact flipBit_ne _ (j - 352) (by rw [hTg2]; omega) e.symm
    refine ⟨hres, ?_⟩
    intro returned
    rw [hres]
    intro e
    cases e
  · rw [base64Decode_base64Encode,
      cryptoSimple_decrypt_long _ _ _ _
        (by rw [base64Decode_base64Encode, flipBit_length, hlen]; omega),
      base64Decode_base64Encode]
    cases hopen : P.gcmOpen
        (P.pbkdf2 (utf8Encode password)
          ((flipBit (d.salt ++ d.iv
            ++ (P.gcmSeal (P.pbkdf2 (utf8Encode password) d.salt iterations keyLength) d.iv
              (utf8Encode data)).2
            ++ (P.gcmSeal (P.pbkdf2 (utf8Encode password) d.salt iterations keyLength) d.iv
              (utf8Encode data)).1) j).take 32) iterations keyLength)
        (((flipBit (d.salt ++ d.iv
            ++ (P.gcmSeal (P.pbkdf2 (utf8Encode password) d.salt iterations keyLength) d.iv
              (utf8Encode data)).2
            ++ (P.gcmSeal (P.pbkdf2 (utf8Encode password) d.salt iterations keyLength) d.iv
              (utf8Encode data)).1) j).drop 32).take 12)
        (((flipBit (d.salt ++ d.iv
            ++ (P.gcmSeal (P.pbkdf2 (utf8Encode password) d.salt iterations keyLength) d.iv
              (utf8Encode data)).2
            ++ (P.gcmSeal (P.pbkdf2 (utf8Encode password) d.salt iterations keyLength) d.iv
              (utf8Encode data)).1) j).drop 44).take 16)
        ((flipBit (d.salt ++ d.iv
            ++ (P.gcmSeal (P.pbkdf2 (utf8Encode password) d.salt iterations keyLength) d.iv
              (utf8Encode data)).2
            ++ (P.gcmSeal (P.pbkdf2 (utf8Encode password) d.salt iterations keyLength) d.iv
              (utf8Encode data)).1) j).drop 60) with
    | none => exact Or.inl rfl
    | some decrypted => exact Or.inr ⟨decrypted, hopen, rfl⟩

/-- Witness of C5 as amended: bit 300 (in the nonce) of the bytes of the text sealed from
`hello`. -/
theorem tamper_detected_witness :
    GcmSound toyPrims ∧ GcmLengths toyPrims ∧ GcmTagUnique toyPrims ∧ GcmNonceUnique toyPrims
      ∧ js "hello" ≠ [] ∧ 8 * 32 ≤ 300 ∧ 300 < 8 * 60
      ∧ ∃ text, (cryptoSimple toyPrims toyDraws (js "hello") (js "pw") (js "encrypt")).result
          = .ok text
        ∧ (cryptoSimple toyPrims toyDraws (base64Encode (flipBit (base64Decode text) 300))
            (js "pw") (js "decrypt")).result
          = .error (js "Ошибка аутентификации: неверный пароль или поврежденные данные") :=
  ⟨toyPrims_sound, toyPrims_lengths, toyPrims_tagUnique, toyPrims_nonceUnique, by decide,
    by decide, by decide,
    (tamper_detected toyPrims toyDraws toyDraws (js "hello") (js "pw") toyPrims_sound
      toyPrims_lengths toyPrims_tagUnique toyPrims_nonceUnique (by decide) 300).elim
      (fun text h => ⟨text, h.1, (h.2.2.1 (by decide) (by decide)).1⟩)⟩

/-- Counterexample to C5 as stated, at two inputs. First, the text returned in `encrypt` mode for
the empty plaintext has 60 bytes, and with its first bit inverted the `decrypt` call throws the
format error (`минимум 61 байт, получено 60`), not the authentication error. Second, with the
values PBKDF2 and AES-256-GCM compute for the password `pw`, the salt `1, …, 32`, the nonce
`101, …, 112` and the plaintext `KEOSU^DZRF@@@@@@QVXG[]B[ZOJ]NA]U`: the `encrypt` call returns the
text `AQID…LJE=`; with the lowest bit of the first salt byte inverted (`AAID…LJE=`) the tag is
valid under the key of the altered salt, and the `decrypt` call returns a text that is not the
plaintext, instead of throwing. -/
theorem tamper_not_always_auth_error :
    ((cryptoSimple toyPrims toyDraws [] (js "pw") (js "encrypt")).result
        = .ok (sealedText toyPrims toyDraws [] (js "pw"))
      ∧ (base64Decode (sealedText toyPrims toyDraws [] (js "pw"))).length = 60
      ∧ (cryptoSimple toyPrims toyDraws
          (base64Encode (flipBit (base64Decode (sealedText toyPrims toyDraws [] (js "pw"))) 0))
          (js "pw") (js "decrypt")).result
        = .error (js "Неверный формат данных (минимум 61 байт, получено 60)")
      ∧ (cryptoSimple toyPrims toyDraws
          (base64Encode (flipBit (base64Decode (sealedText toyPrims toyDraws [] (js "pw"))) 0))
          (js "pw") (js "decrypt")).result
        ≠ .error (js "Ошибка аутентификации: неверный пароль или поврежденные данные"))
    ∧ ((cryptoSimple recordedPrims toyDraws recordedText (js "pw") (js "encrypt")).result
        = .ok (js ("AQIDBAUGBwgJCgsMDQ4PEBESExQVFhcYGRobHB0eHyBlZmdoaWprbG1ub3Dl6l6dTAA1N1HCWdMC"
            ++ "WTgWg1D+xLBlskWJS/RL5FTVtpIiWVvx+biCWA16AaM2LJE="))
      ∧ base64Encode (flipBit (base64Decode
          (js ("AQIDBAUGBwgJCgsMDQ4PEBESExQVFhcYGRobHB0eHyBlZmdoaWprbG1ub3Dl6l6dTAA1N1HCWdMC"
            ++ "WTgWg1D+xLBlskWJS/RL5FTVtpIiWVvx+biCWA16AaM2LJE="))) 0)
        = js ("AAIDBAUGBwgJCgsMDQ4PEBESExQVFhcYGRobHB0eHyBlZmdoaWprbG1ub3Dl6l6dTAA1N1HCWdMC"
            ++ "WTgWg1D+xLBlskWJS/RL5FTVtpIiWVvx+biCWA16AaM2LJE=")
      ∧ (cryptoSimple recordedPrims toyDraws
          (js ("AAIDBAUGBwgJCgsMDQ4PEBESExQVFhcYGRobHB0eHyBlZmdoaWprbG1ub3Dl6l6dTAA1N1HCWdMC"
            ++ "WTgWg1D+xLBlskWJS/RL5FTVtpIiWVvx+biCWA16AaM2LJE="))
          (js "pw") (js "decrypt")).result = .ok (utf8Decode recordedDecrypted2)
      ∧ utf8Decode recordedDecrypted2 ≠ recordedText) :=
  ⟨⟨by decide, by decide, by decide, by decide⟩, ⟨by decide, by decide, by decide, by decide⟩⟩

end Encrypt
